import Mathlib

/-!
Verification development for the folder-based kanban board format
(`src/parsers/FolderFormat.ts`).

The TypeScript class `FolderFormat` is shallowly embedded here:

* YAML front-matter values become `FmValue` (scalars plus flat string
  sequences, which is all the code ever inspects); a metadata mapping is an
  insertion-ordered association list `List (String × MetaValue)`, where
  `MetaValue` additionally allows the in-memory `file` back-reference object
  (a `TFile` in the source).
* The vault (the slice of it that this format touches: the column folders
  directly under the board root and the `.md` files directly inside them) is
  a `Vault`: a list of folder names and an association list from file
  references to file contents.  The Obsidian API calls used by the source
  (`getAbstractFileByPath`, `createFolder`, `create`, `modify`, `delete`,
  `renameFile`) become pure state-passing functions on `Vault`.
* Asynchronous sequencing in the source is plain sequential composition: the
  save path `await`s every operation in program order, so the `async`
  functions are total state-passing functions, and the order of the awaited
  operations is recorded in an explicit `SaveEvent` trace.
* JavaScript truthiness (`x || y`, `if (x)`) is modelled by `FmValue.truthy`
  / `MetaValue.truthy`.
-/

namespace FolderFormat

/-- Front-matter values: the YAML scalars the code inspects, plus flat string
sequences (used for `aliases` and `tags`). -/
inductive FmValue where
  | null
  | bool (b : Bool)
  | str (s : String)
  | num (n : Int)
  | list (xs : List String)
deriving DecidableEq, Repr

/-- Reference to one item file: the column folder directly under the board
root that contains it, and its base name (the extension is always `md`). -/
structure FileRef where
  folder : String
  basename : String
deriving DecidableEq, Repr

/-- The file's name (`TFile.name` in the source): base name plus extension. -/
def FileRef.name (f : FileRef) : String := f.basename ++ ".md"

/-- The file's vault path relative to the board root (`TFile.path`). -/
def FileRef.path (f : FileRef) : String := f.folder ++ "/" ++ f.basename ++ ".md"

/-- A value stored in an item's metadata mapping: either a plain front-matter
value or the `TFile` back-reference kept under the key `file`. -/
inductive MetaValue where
  | val (v : FmValue)
  | file (f : FileRef)
deriving DecidableEq, Repr

/-- JavaScript truthiness of a front-matter value (`null`, `false`, `""` and
`0` are falsy; arrays are objects and hence always truthy). -/
def FmValue.truthy : FmValue → Bool
  | .null => false
  | .bool b => b
  | .str s => !s.isEmpty
  | .num n => n != 0
  | .list _ => true

/-- JavaScript truthiness of a metadata value; a `TFile` object is truthy. -/
def MetaValue.truthy : MetaValue → Bool
  | .val v => v.truthy
  | .file _ => true

/-- A metadata / front-matter mapping with JavaScript object key order. -/
abbrev Metadata := List (String × MetaValue)

/-- Property read `m[k]` on a JavaScript object (first binding wins; the
lists built here never hold duplicate keys). -/
def getKey : Metadata → String → Option MetaValue
  | [], _ => none
  | (k', v) :: rest, k => if k' = k then some v else getKey rest k

/-- Property write `m[k] = v`: overwrites in place when the key exists
(JavaScript objects keep the original insertion position), appends otherwise. -/
def setKey : Metadata → String → MetaValue → Metadata
  | [], k, v => [(k, v)]
  | (k', v') :: rest, k, v => if k' = k then (k, v) :: rest else (k', v') :: setKey rest k v

/-- Property deletion `delete m[k]`. -/
def delKey : Metadata → String → Metadata
  | [], _ => []
  | (k', v') :: rest, k => if k' = k then delKey rest k else (k', v') :: delKey rest k

/-- Lookup in a plain front-matter mapping (as produced by the YAML parser). -/
def lookupFm : List (String × FmValue) → String → Option FmValue
  | [], _ => none
  | (k', v) :: rest, k => if k' = k then some v else lookupFm rest k

/-- A parsed front-matter mapping viewed as item metadata. -/
def fmMap (fm : List (String × FmValue)) : Metadata :=
  fm.map (fun e => (e.1, MetaValue.val e.2))

section AssocLemmas

theorem getKey_setKey_self (m : Metadata) (k : String) (v : MetaValue) :
    getKey (setKey m k v) k = some v := by
  induction m with
  | nil => simp [setKey, getKey]
  | cons e rest ih =>
    obtain ⟨k', v'⟩ := e
    by_cases h : k' = k
    · simp [setKey, h, getKey]
    · simpa [setKey, h, getKey] using ih

theorem getKey_setKey_ne (m : Metadata) (k k' : String) (v : MetaValue) (h : k' ≠ k) :
    getKey (setKey m k v) k' = getKey m k' := by
  induction m with
  | nil => simp [setKey, getKey, Ne.symm h]
  | cons e rest ih =>
    obtain ⟨a, b⟩ := e
    by_cases he : a = k
    · subst he
      simp [setKey, getKey, Ne.symm h]
    · by_cases he' : a = k'
      · simp [setKey, he, getKey, he', h]
      · simpa [setKey, he, getKey, he'] using ih

theorem getKey_delKey_self (m : Metadata) (k : String) :
    getKey (delKey m k) k = none := by
  induction m with
  | nil => simp [delKey, getKey]
  | cons e rest ih =>
    obtain ⟨a, b⟩ := e
    by_cases h : a = k
    · simpa [delKey, h, getKey] using ih
    · simpa [delKey, h, getKey] using ih

theorem getKey_delKey_ne (m : Metadata) (k k' : String) (h : k' ≠ k) :
    getKey (delKey m k) k' = getKey m k' := by
  induction m with
  | nil => simp [delKey, getKey]
  | cons e rest ih =>
    obtain ⟨a, b⟩ := e
    by_cases he : a = k
    · subst he
      simpa [delKey, getKey, Ne.symm h] using ih
    · by_cases he' : a = k'
      · simp [delKey, he, getKey, he', h]
      · simpa [delKey, he, getKey, he'] using ih

theorem getKey_fmMap (fm : List (String × FmValue)) (k : String) :
    getKey (fmMap fm) k = (lookupFm fm k).map MetaValue.val := by
  induction fm with
  | nil => simp [fmMap, getKey, lookupFm]
  | cons e rest ih =>
    obtain ⟨a, b⟩ := e
    by_cases h : a = k
    · simp [fmMap, getKey, lookupFm, h]
    · simpa [fmMap, getKey, lookupFm, h] using ih

end AssocLemmas

/-! ## The vault

The slice of the Obsidian vault this format reads and writes: the column
folders directly under the board root and the markdown files directly inside
them.  `files` is keyed by `FileRef` (folder plus base name); every file it
holds has extension `md`. -/

/-- Vault state under the board root. -/
structure Vault where
  folders : List String
  files : List (FileRef × String)
deriving DecidableEq, Repr

/-- Existence of a file in a file list. -/
def fileTakenList : List (FileRef × String) → FileRef → Bool
  | [], _ => false
  | (g, _) :: rest, f => if g = f then true else fileTakenList rest f

/-- Whether a markdown file exists at the given reference
(`vault.getAbstractFileByPath(path)` returning a `TFile`). -/
def Vault.fileTaken (v : Vault) (f : FileRef) : Bool :=
  fileTakenList v.files f

/-- Lookup of a file's content in a file list. -/
def lookupFileList : List (FileRef × String) → FileRef → Option String
  | [], _ => none
  | (g, c) :: rest, f => if g = f then some c else lookupFileList rest f

/-- Content of the file at the given reference, when it exists. -/
def Vault.read (v : Vault) (f : FileRef) : Option String :=
  lookupFileList v.files f

/-- The `vault.createFolder` call guarded by the preceding
`boardFolder.children.find` lookup: create the column folder only when no
folder of that name exists yet. -/
def Vault.ensureFolder (v : Vault) (name : String) : Vault :=
  if name ∈ v.folders then v else { v with folders := name :: v.folders }

/-- Rename in a file list: the file keeps its content and gets the new path. -/
def renameList : List (FileRef × String) → FileRef → FileRef → List (FileRef × String)
  | [], _, _ => []
  | (g, s) :: rest, src, dst =>
    if g = src then (dst, s) :: renameList rest src dst
    else (g, s) :: renameList rest src dst

/-- The `fileManager.renameFile` call. -/
def Vault.rename (v : Vault) (src dst : FileRef) : Vault :=
  { v with files := renameList v.files src dst }

/-- Overwrite in a file list. -/
def modifyList : List (FileRef × String) → FileRef → String → List (FileRef × String)
  | [], _, _ => []
  | (g, s) :: rest, f, c =>
    if g = f then (f, c) :: modifyList rest f c
    else (g, s) :: modifyList rest f c

/-- The `vault.modify` call: overwrite the content of an existing file. -/
def Vault.modify (v : Vault) (f : FileRef) (content : String) : Vault :=
  { v with files := modifyList v.files f content }

/-- The `vault.create` call: add a new file with initial content. -/
def Vault.createFile (v : Vault) (f : FileRef) (content : String) : Vault :=
  { v with files := (f, content) :: v.files }

/-- The `vault.delete` call. -/
def Vault.deleteFile (v : Vault) (f : FileRef) : Vault :=
  { v with files := v.files.filter (fun e => e.1 ≠ f) }

/-! ## Title sanitization (Filename Allocator input)

`item.data.titleRaw.replace(/[^a-zA-Z0-9\s-_]/g, '').trim()` — the regex
class keeps ASCII letters, digits, JavaScript whitespace (`\s`), `-` and `_`
(between `\s` and `_` the `-` is literal), and `trim()` strips whitespace
from both ends.  `\s` and `trim` are modelled on their ASCII part. -/

/-- ASCII JavaScript whitespace (the ASCII part of the regex class `\s` and
of the characters removed by `String.prototype.trim`). -/
def isJsSpace (c : Char) : Bool :=
  c = ' ' || c = '\t' || c = '\n' || c = '\r' || c = '\x0b' || c = '\x0c'

/-- Characters kept by `replace(/[^a-zA-Z0-9\s-_]/g, '')`. -/
def keepChar (c : Char) : Bool :=
  c.isAlpha || c.isDigit || isJsSpace c || c = '-' || c = '_'

/-- `String.prototype.trim`. -/
def jsTrim (s : String) : String :=
  String.mk (((s.toList.dropWhile isJsSpace).reverse.dropWhile isJsSpace).reverse)

/-- The sanitized desired base name computed from an item title. -/
def sanitizeTitle (s : String) : String :=
  jsTrim (String.mk (s.toList.filter keepChar))

/-! ## Parsed markdown (Metadata Extractor contract)

`parseMarkdown` is an external collaborator; item hydration receives its
result: a front-matter mapping and the body's block AST, of which the code
inspects only whether the first block is a heading and the text inline nodes
of that heading. -/

/-- An inline node of the body AST: a text node carries its value, every
other node type contributes the empty string to a heading's text. -/
inductive InlineNode where
  | text (s : String)
  | nontext
deriving DecidableEq, Repr

/-- A block node of the body AST. -/
inductive BlockNode where
  | heading (children : List InlineNode)
  | paragraph
  | nonheading
deriving DecidableEq, Repr

/-- Text of a heading block:
`children.map(c => c.type === 'text' ? c.value : '').join('')`. -/
def headingText (cs : List InlineNode) : String :=
  (cs.map (fun c => match c with | .text s => s | .nontext => "")).foldl (· ++ ·) ""

/-- Result of the `parseMarkdown` capability on one item file. -/
structure ParsedDoc where
  frontmatter : List (String × FmValue)
  ast : List BlockNode
deriving DecidableEq, Repr

/-! ## Board model -/

/-- The data record of an item (`item.data`).  Identifiers are ephemeral and
irrelevant to persistence; `metadata` holds the front matter plus the `file`
back-reference; `parent_id` mirrors `data.parent_id`. -/
structure ItemData where
  checked : Bool
  checkChar : Char
  title : String
  titleRaw : String
  titleSearch : String
  metadata : Metadata
  parent_id : FmValue
deriving DecidableEq, Repr

/-- One task item. -/
structure Item where
  id : String
  data : ItemData
deriving DecidableEq, Repr

/-- The data record of a lane (column). -/
structure LaneData where
  title : String
deriving DecidableEq, Repr

/-- One column; `children` is its ordered item list. -/
structure Lane where
  id : String
  data : LaneData
  children : List Item
deriving DecidableEq, Repr

/-- The data record of a board. -/
structure BoardData where
  settings : List (String × FmValue)
  frontmatter : List (String × FmValue)
deriving DecidableEq, Repr

/-- One board; `children` is its ordered column list. -/
structure Board where
  id : String
  data : BoardData
  children : List Lane
deriving DecidableEq, Repr

/-! ## Layout detection -/

/-- A direct child of the board root folder, as `hasFolderStructure` sees it:
a subfolder (with the names of the markdown files it contains) or a file. -/
inductive FsChild where
  | folder (name : String) (mdFiles : List String)
  | file (name : String) (extension : String)
deriving DecidableEq, Repr

/-- Whether a board-root child is a `TFolder`. -/
def FsChild.isFolder : FsChild → Bool
  | .folder _ _ => true
  | .file _ _ => false

/-- The layout detector `hasFolderStructure`: scan the board folder's direct
children and return true at the first subfolder (any folder at board level
can be a column, even an empty one); return false after the loop otherwise. -/
def hasFolderStructure (children : List FsChild) : Bool :=
  children.any FsChild.isFolder

/-! ## Item hydration -/

/-- The fallback title when the front-matter `title` is absent or falsy:
`itemFile.basename`, overridden by the first body block's text when that
block is a heading. -/
def fallbackTitle (file : FileRef) (ast : List BlockNode) : String :=
  match ast with
  | .heading cs :: _ => headingText cs
  | _ => file.basename

/-- Title resolution of `loadItemFromFile`: the truthy front-matter `title`
when it is a string; the fallback title when `title` is absent or falsy;
`none` when `title` is truthy but not a string, in which case the later
`title.toLowerCase()` raises a `TypeError` that the surrounding `catch`
turns into a skipped item. -/
def loadTitle (itemFile : FileRef) (fm : List (String × FmValue))
    (ast : List BlockNode) : Option String :=
  match lookupFm fm "title" with
  | some (.str s) => if s.isEmpty then some (fallbackTitle itemFile ast) else some s
  | some v => if v.truthy then none else some (fallbackTitle itemFile ast)
  | none => some (fallbackTitle itemFile ast)

/-- The checked-state rule of `loadItemFromFile`:
`completed === true || status === 'completed' || done === true`. -/
def isCompletedFm (fm : List (String × FmValue)) : Prop :=
  lookupFm fm "completed" = some (.bool true) ∨
  lookupFm fm "status" = some (.str "completed") ∨
  lookupFm fm "done" = some (.bool true)

instance (fm : List (String × FmValue)) : Decidable (isCompletedFm fm) := by
  unfold isCompletedFm; infer_instance

/-- The item record built by `loadItemFromFile` once the title is known. -/
def hydratedItem (itemFile : FileRef) (fm : List (String × FmValue))
    (title : String) : Item :=
  { id := ""
    data :=
      { checked := isCompletedFm fm
        checkChar := if isCompletedFm fm then 'x' else ' '
        title := title
        titleRaw := title
        titleSearch := title.toLower
        metadata := setKey (fmMap fm) "file" (.file itemFile)
        parent_id :=
          match lookupFm fm "parent_id" with
          | some v => if v.truthy then v else .null
          | none => .null } }

/-- The item hydrator `loadItemFromFile`, applied to the parsed content of
one file; `none` is the skipped-item outcome of the per-file `catch`. -/
def loadItemFromFile (itemFile : FileRef) (fm : List (String × FmValue))
    (ast : List BlockNode) : Option Item :=
  (loadTitle itemFile fm ast).map (hydratedItem itemFile fm)

/-! ## Column and board hydration -/

/-- Item order used by `loadColumn`:
`a.data.titleRaw.localeCompare(b.data.titleRaw)`, with the locale-aware
comparison modelled as the default order on strings. -/
def itemLe (a b : Item) : Prop := a.data.titleRaw ≤ b.data.titleRaw

instance : DecidableRel itemLe := fun a b =>
  inferInstanceAs (Decidable (a.data.titleRaw ≤ b.data.titleRaw))

instance : IsTotal Item itemLe := ⟨fun a b => le_total a.data.titleRaw b.data.titleRaw⟩

instance : IsTrans Item itemLe := ⟨fun _ _ _ hab hbc => le_trans hab hbc⟩

/-- Lane order used by `loadFromFolderStructure`:
`a.data.title.localeCompare(b.data.title)`, modelled the same way. -/
def laneLe (a b : Lane) : Prop := a.data.title ≤ b.data.title

instance : DecidableRel laneLe := fun a b =>
  inferInstanceAs (Decidable (a.data.title ≤ b.data.title))

instance : IsTotal Lane laneLe := ⟨fun a b => le_total a.data.title b.data.title⟩

instance : IsTrans Lane laneLe := ⟨fun _ _ _ hab hbc => le_trans hab hbc⟩

/-- One markdown file of a column folder together with the outcome of
reading and parsing it; `none` stands for the `vault.read` / `parseMarkdown`
failure that the per-file `try`/`catch` swallows. -/
abbrev ItemSource := FileRef × Option ParsedDoc

/-- The column hydrator `loadColumn`: the column title is the folder's name,
each readable file is hydrated (failures skipped), and the items are sorted
by `titleRaw`. -/
def loadColumn (folderName : String) (docs : List ItemSource) : Lane :=
  let items := docs.filterMap (fun e =>
    match e.2 with
    | none => none
    | some d => loadItemFromFile e.1 d.frontmatter d.ast)
  { id := ""
    data := { title := folderName }
    children := List.insertionSort itemLe items }

/-- One column folder of the board root with its parsed markdown files. -/
structure ColumnSource where
  name : String
  docs : List ItemSource
deriving Repr

/-- The board hydrator `loadFromFolderStructure`, applied to the parsed root
descriptor (its front matter and settings) and the column folders found
under the board root: hydrate every column, then sort the lanes by title.
The downstream `hydrateBoard` enrichment is an external collaborator and is
not part of this embedding. -/
def loadFromFolderStructure (frontmatter settings : List (String × FmValue))
    (columns : List ColumnSource) : Board :=
  let lanes := columns.map (fun c => loadColumn c.name c.docs)
  { id := ""
    data := { settings := settings, frontmatter := frontmatter }
    children := List.insertionSort laneLe lanes }

/-! ## YAML serialization (codec capability)

`stringifyYaml` is an external collaborator; the model serializes one
`key: value` line per binding, in mapping order.  The exact text is
irrelevant to the claims, which compare front-matter mappings; only the
dependence of the text on the mapping matters. -/

/-- Rendering of one front-matter value. -/
def FmValue.render : FmValue → String
  | .null => "null"
  | .bool b => if b then "true" else "false"
  | .str s => s
  | .num n => toString n
  | .list xs => "[" ++ String.intercalate ", " xs ++ "]"

/-- Rendering of one metadata value (a file back-reference never survives to
serialization; the source deletes the `file` key first). -/
def MetaValue.render : MetaValue → String
  | .val v => v.render
  | .file f => f.path

/-- Modelled `stringifyYaml` over a mapping. -/
def stringifyYaml (m : Metadata) : String :=
  (m.map (fun e => e.1 ++ ": " ++ e.2.render ++ "\n")).foldl (· ++ ·) ""

/-- Modelled from the spec: the front-matter key of the plugin, exported by
`parsers/common.ts`, which is not part of the provided sources; the spec
calls it "the kanban-plugin key". -/
def frontmatterKey : String := "kanban-plugin"

/-! ## Item content generation -/

/-- The front-matter mapping assembled by `generateItemFileContent` before
serialization: copy the item's metadata; set `completed: true` when the check
character is `x` and delete the key otherwise; force `parent_id` (falsy
becomes null), `aliases` and `tags` (falsy becomes the empty sequence); set
`id` to the back-reference file's base name when the item has one and to the
sanitized title (or `untitled`) otherwise; finally delete the `file`
back-reference. -/
def generateItemFrontmatter (item : Item) : Metadata :=
  let fm := item.data.metadata
  let fm := if item.data.checkChar = 'x'
            then setKey fm "completed" (.val (.bool true))
            else delKey fm "completed"
  let fm := setKey fm "parent_id"
              (.val (if item.data.parent_id.truthy then item.data.parent_id else .null))
  let fm := setKey fm "aliases"
              (match getKey fm "aliases" with
               | some m => if m.truthy then m else .val (.list [])
               | none => .val (.list []))
  let fm := setKey fm "tags"
              (match getKey fm "tags" with
               | some m => if m.truthy then m else .val (.list [])
               | none => .val (.list []))
  let fm := match getKey item.data.metadata "file" with
            | some (.file f) => setKey fm "id" (.val (.str f.basename))
            | _ =>
              let s := sanitizeTitle item.data.titleRaw
              setKey fm "id" (.val (.str (if s.isEmpty then "untitled" else s)))
  delKey fm "file"

/-- The full text written for an item: a front-matter block followed by a
blank body. -/
def generateItemFileContent (item : Item) : String :=
  "---\n" ++ stringifyYaml (generateItemFrontmatter item) ++ "---\n\n"

/-- The helper `updateItemFileContent`: regenerate the item's content and
overwrite the given file in place. -/
def updateItemFileContent (item : Item) (file : FileRef) (v : Vault) : Vault :=
  v.modify file (generateItemFileContent item)

/-- Update of `item.data.metadata.file` after a create or move. -/
def setItemFile (item : Item) (f : FileRef) : Item :=
  { item with data := { item.data with metadata := setKey item.data.metadata "file" (.file f) } }

/-! ## Filename allocation -/

/-- The `while (getAbstractFileByPath(...)) counter++` probe shared by
`createNewItemFile` and `moveItemToNewColumn`: starting at `counter`, find
the first unused `base_counter` name in the column.  The loop terminates on
real vaults because only finitely many names are taken; the explicit `fuel`
bound makes the model total, and the theorems below use enough fuel to reach
the first free name. -/
def allocLoop (v : Vault) (col base : String) : Nat → Nat → FileRef
  | 0, k => ⟨col, base ++ "_" ++ toString k⟩
  | fuel + 1, k =>
    let cand : FileRef := ⟨col, base ++ "_" ++ toString k⟩
    if v.fileTaken cand then allocLoop v col base fuel (k + 1) else cand

/-- Allocation of a new file name in `createNewItemFile`: use `base.md` when
free, else the first free `base_k.md` with `k = 1, 2, ...`. -/
def allocFileRef (v : Vault) (col base : String) : FileRef :=
  if v.fileTaken ⟨col, base⟩ then allocLoop v col base (v.files.length + 1) 1
  else ⟨col, base⟩

/-! ## The per-item save operations -/

/-- The helper `createNewItemFile`: ensure the column folder exists, derive
the sanitized base name (falling back to `untitled`), allocate a collision
free name, generate the content — note: before the back-reference is set —
create the file and record it as the item's back-reference. -/
def createNewItemFile (item : Item) (columnName : String) (v : Vault) : Item × Vault :=
  let v := v.ensureFolder columnName
  let s := sanitizeTitle item.data.titleRaw
  let base := if s.isEmpty then "untitled" else s
  let target := allocFileRef v columnName base
  let content := generateItemFileContent item
  let v := v.createFile target content
  (setItemFile item target, v)

/-- The helper `moveItemToNewColumn`: ensure the target column folder exists;
when a different file already sits at the target path, rename to the first
free `basename_k.md` instead; update the back-reference; finally rewrite the
moved file's content. -/
def moveItemToNewColumn (item : Item) (existingFile : FileRef) (newColumnName : String)
    (v : Vault) : Item × Vault :=
  let v := v.ensureFolder newColumnName
  let newRef : FileRef := ⟨newColumnName, existingFile.basename⟩
  let step : Item × Vault :=
    if v.fileTaken newRef ∧ newRef ≠ existingFile then
      let uniq := allocLoop v newColumnName existingFile.basename (v.files.length + 1) 1
      (setItemFile item uniq, v.rename existingFile uniq)
    else
      (setItemFile item newRef, v.rename existingFile newRef)
  let item := step.1
  let v := step.2
  match getKey item.data.metadata "file" with
  | some (.file currentFile) => (item, updateItemFileContent item currentFile v)
  | _ => (item, v)

/-- The helper `saveItemToCorrectFolder`: update in place when the item's
recorded file already sits in the target column, move it when it sits
elsewhere, create a new file when the item has no back-reference. -/
def saveItemToCorrectFolder (item : Item) (newColumnName : String) (v : Vault) :
    Item × Vault :=
  match getKey item.data.metadata "file" with
  | some (.file existingFile) =>
    if existingFile.folder = newColumnName then
      (item, updateItemFileContent item existingFile v)
    else
      moveItemToNewColumn item existingFile newColumnName v
  | _ => createNewItemFile item newColumnName v

/-! ## Whole-board save -/

/-- One awaited step of the save fan-out, in program order: the per-item
create/update/move of `saveItemToCorrectFolder`, or one column's orphan
cleanup. -/
inductive SaveEvent where
  | itemSave (column : String) (itemId : String)
  | cleanup (column : String)
deriving DecidableEq, Repr

/-- The helper `cleanupColumnFolder`: in the named column folder (when it
exists), delete every markdown file whose name is not among the expected
file names. -/
def cleanupColumnFolder (v : Vault) (columnName : String) (expected : List String) :
    Vault :=
  if columnName ∈ v.folders then
    { v with
      files := v.files.filter (fun e =>
        !(e.1.folder = columnName && e.1.name ∉ expected)) }
  else v

/-- The inner item loop of `saveAllItemsToFolders` for one column.  `fails`
injects the per-item write failure of one `saveItemToCorrectFolder` call
(permissions, race): a failing call changes nothing and its exception is
caught, so the item keeps its old state and — as in the source — its file
name is not added to the column's expected set. -/
def saveItemsInLane (fails : Item → Bool) (columnName : String) :
    List Item → Vault → List Item × Vault × List String × List SaveEvent
  | [], v => ([], v, [], [])
  | item :: rest, v =>
    if fails item then
      let (items, v', exp, evs) := saveItemsInLane fails columnName rest v
      (item :: items, v', exp, evs)
    else
      let (item', v₁) := saveItemToCorrectFolder item columnName v
      let exp₀ := match getKey item'.data.metadata "file" with
                  | some (.file f) => [f.name]
                  | _ => []
      let (items, v', exp, evs) := saveItemsInLane fails columnName rest v₁
      (item' :: items, v', exp₀ ++ exp, .itemSave columnName item.id :: evs)

/-- One iteration of the lane loop of `saveAllItemsToFolders`: save every
item of the lane, then immediately clean up that lane's folder. -/
def processLane (fails : Item → Bool) (lane : Lane) (v : Vault) :
    Lane × Vault × List SaveEvent :=
  let (items, v₁, exp, evs) := saveItemsInLane fails lane.data.title lane.children v
  ({ lane with children := items },
   cleanupColumnFolder v₁ lane.data.title exp,
   evs ++ [.cleanup lane.data.title])

/-- The lane loop of `saveAllItemsToFolders`. -/
def saveLanes (fails : Item → Bool) : List Lane → Vault → List Lane × Vault × List SaveEvent
  | [], v => ([], v, [])
  | lane :: rest, v =>
    let (lane', v₁, evs₁) := processLane fails lane v
    let (lanes', v₂, evs₂) := saveLanes fails rest v₁
    (lane' :: lanes', v₂, evs₁ ++ evs₂)

/-- The whole-board save `saveAllItemsToFolders`: process every lane in
order; returns the board with the items' updated back-references, the final
vault, and the trace of awaited operations in program order. -/
def saveAllItemsToFolders (fails : Item → Bool) (board : Board) (v : Vault) :
    Board × Vault × List SaveEvent :=
  let (lanes, v', trace) := saveLanes fails board.children v
  ({ board with children := lanes }, v', trace)

/-- Whether a save trace runs every column's orphan cleanup strictly after
all item-level operations of the entire board: no `itemSave` may follow a
`cleanup`. -/
def cleanupAfterAllWrites : List SaveEvent → Bool
  | [] => true
  | .itemSave _ _ :: rest => cleanupAfterAllWrites rest
  | .cleanup _ :: rest => rest.all (fun e => match e with
      | .itemSave _ _ => false
      | .cleanup _ => true)
    && cleanupAfterAllWrites rest

/-- The descriptor text built by `saveBoardStructure` and returned by
`boardToMd`: a front-matter block holding the plugin key and the board's
front matter, followed by fixed boilerplate.  (The source also reads
`board.data.settings` into an unused local, and fires the asynchronous
`saveAllItemsToFolders` as a side effect; the returned string is built from
the front matter alone.) -/
def boardToMd (board : Board) : String :=
  let fm := board.data.frontmatter.foldl (fun acc e => setKey acc e.1 (.val e.2))
              [(frontmatterKey, MetaValue.val (.str "board"))]
  "---\n" ++ stringifyYaml fm ++ "---\n\n" ++
  "# Board\n\n" ++
  "This board uses folder structure for columns and items.\n\n" ++
  "Each folder represents a column, and each .md file in the folder represents an item.\n"

/-! ## Lemmas about the vault operations -/

section VaultLemmas

theorem lookup_modifyList_self (l : List (FileRef × String)) (f : FileRef) (c : String)
    (h : fileTakenList l f = true) :
    lookupFileList (modifyList l f c) f = some c := by
  induction l with
  | nil => simp [fileTakenList] at h
  | cons e rest ih =>
    obtain ⟨g, s⟩ := e
    by_cases he : g = f
    · simp [modifyList, he, lookupFileList]
    · have h' : fileTakenList rest f = true := by simpa [fileTakenList, he] using h
      simpa [modifyList, he, lookupFileList] using ih h'

theorem lookup_modifyList_other (l : List (FileRef × String)) (f : FileRef) (c : String)
    (g : FileRef) (h : g ≠ f) :
    lookupFileList (modifyList l f c) g = lookupFileList l g := by
  induction l with
  | nil => rfl
  | cons e rest ih =>
    obtain ⟨a, s⟩ := e
    by_cases ha : a = f
    · subst ha
      simpa [modifyList, lookupFileList, Ne.symm h, fun h' : a = g => h (h'.symm.trans rfl)] using ih
    · by_cases hg : a = g
      · simp [modifyList, ha, lookupFileList, hg, h]
      · simpa [modifyList, ha, lookupFileList, hg] using ih

theorem lookup_renameList_src (l : List (FileRef × String)) (src dst : FileRef)
    (h : src ≠ dst) :
    lookupFileList (renameList l src dst) src = none := by
  induction l with
  | nil => rfl
  | cons e rest ih =>
    obtain ⟨a, s⟩ := e
    by_cases ha : a = src
    · simpa [renameList, ha, lookupFileList, Ne.symm h] using ih
    · simpa [renameList, ha, lookupFileList] using ih

theorem lookup_renameList_other (l : List (FileRef × String)) (src dst g : FileRef)
    (h1 : g ≠ src) (h2 : g ≠ dst) :
    lookupFileList (renameList l src dst) g = lookupFileList l g := by
  induction l with
  | nil => rfl
  | cons e rest ih =>
    obtain ⟨a, s⟩ := e
    by_cases ha : a = src
    · subst ha
      simpa [renameList, lookupFileList, Ne.symm h1, Ne.symm h2] using ih
    · by_cases hg : a = g
      · simp [renameList, ha, lookupFileList, hg, h1]
      · simpa [renameList, ha, lookupFileList, hg] using ih

theorem fileTaken_renameList_dst (l : List (FileRef × String)) (src dst : FileRef)
    (h : fileTakenList l src = true) :
    fileTakenList (renameList l src dst) dst = true := by
  induction l with
  | nil => simp [fileTakenList] at h
  | cons e rest ih =>
    obtain ⟨a, s⟩ := e
    by_cases ha : a = src
    · simp [renameList, ha, fileTakenList]
    · have h' : fileTakenList rest src = true := by simpa [fileTakenList, ha] using h
      by_cases hd : a = dst
      · simp [renameList, ha, fileTakenList, hd]
      · simpa [renameList, ha, fileTakenList, hd] using ih h'

theorem keys_modifyList (l : List (FileRef × String)) (f : FileRef) (c : String) :
    (modifyList l f c).map Prod.fst = l.map Prod.fst := by
  induction l with
  | nil => rfl
  | cons e rest ih =>
    obtain ⟨a, s⟩ := e
    by_cases ha : a = f
    · subst ha
      simpa [modifyList] using ih
    · simpa [modifyList, ha] using ih

theorem ensureFolder_files (v : Vault) (name : String) :
    (v.ensureFolder name).files = v.files := by
  unfold Vault.ensureFolder
  split <;> rfl

theorem mem_ensureFolder_folders (v : Vault) (name : String) :
    name ∈ (v.ensureFolder name).folders := by
  unfold Vault.ensureFolder
  split
  · assumption
  · exact List.mem_cons_self _ _

theorem ensureFolder_fileTaken (v : Vault) (name : String) (f : FileRef) :
    (v.ensureFolder name).fileTaken f = v.fileTaken f := by
  unfold Vault.fileTaken
  rw [ensureFolder_files]

theorem read_modify_self (v : Vault) (f : FileRef) (c : String)
    (h : v.fileTaken f = true) :
    (v.modify f c).read f = some c :=
  lookup_modifyList_self v.files f c h

theorem read_modify_other (v : Vault) (f : FileRef) (c : String) (g : FileRef)
    (h : g ≠ f) :
    (v.modify f c).read g = v.read g :=
  lookup_modifyList_other v.files f c g h

theorem modify_keys (v : Vault) (f : FileRef) (c : String) :
    (v.modify f c).files.map Prod.fst = v.files.map Prod.fst :=
  keys_modifyList v.files f c

theorem read_rename_src (v : Vault) (src dst : FileRef) (h : src ≠ dst) :
    (v.rename src dst).read src = none :=
  lookup_renameList_src v.files src dst h

theorem read_rename_other (v : Vault) (src dst g : FileRef) (h1 : g ≠ src) (h2 : g ≠ dst) :
    (v.rename src dst).read g = v.read g :=
  lookup_renameList_other v.files src dst g h1 h2

theorem fileTaken_rename_dst (v : Vault) (src dst : FileRef)
    (h : v.fileTaken src = true) :
    (v.rename src dst).fileTaken dst = true :=
  fileTaken_renameList_dst v.files src dst h

theorem rename_folders (v : Vault) (src dst : FileRef) :
    (v.rename src dst).folders = v.folders := rfl

theorem modify_folders (v : Vault) (f : FileRef) (c : String) :
    (v.modify f c).folders = v.folders := rfl

theorem read_createFile_self (v : Vault) (f : FileRef) (c : String) :
    (v.createFile f c).read f = some c := by
  simp [Vault.createFile, Vault.read, lookupFileList]

theorem read_createFile_other (v : Vault) (f : FileRef) (c : String) (g : FileRef)
    (h : g ≠ f) :
    (v.createFile f c).read g = v.read g := by
  simp [Vault.createFile, Vault.read, lookupFileList, Ne.symm h]

end VaultLemmas

/-! ## Lemmas about `generateItemFrontmatter` -/

section GenLemmas

variable (item : Item)

theorem getKey_genFm_file : getKey (generateItemFrontmatter item) "file" = none := by
  unfold generateItemFrontmatter
  exact getKey_delKey_self _ _

theorem getKey_genFm_other (k : String)
    (h1 : k ≠ "completed") (h2 : k ≠ "parent_id") (h3 : k ≠ "aliases")
    (h4 : k ≠ "tags") (h5 : k ≠ "id") (h6 : k ≠ "file") :
    getKey (generateItemFrontmatter item) k = getKey item.data.metadata k := by
  unfold generateItemFrontmatter
  rw [getKey_delKey_ne _ _ _ h6]
  cases hf : getKey item.data.metadata "file" with
  | none =>
    rw [getKey_setKey_ne _ _ _ _ h5, getKey_setKey_ne _ _ _ _ h4,
        getKey_setKey_ne _ _ _ _ h3, getKey_setKey_ne _ _ _ _ h2]
    split
    · rw [getKey_setKey_ne _ _ _ _ h1]
    · rw [getKey_delKey_ne _ _ _ h1]
  | some mv =>
    cases mv with
    | val w =>
      rw [getKey_setKey_ne _ _ _ _ h5, getKey_setKey_ne _ _ _ _ h4,
          getKey_setKey_ne _ _ _ _ h3, getKey_setKey_ne _ _ _ _ h2]
      split
      · rw [getKey_setKey_ne _ _ _ _ h1]
      · rw [getKey_delKey_ne _ _ _ h1]
    | file f =>
      rw [getKey_setKey_ne _ _ _ _ h5, getKey_setKey_ne _ _ _ _ h4,
          getKey_setKey_ne _ _ _ _ h3, getKey_setKey_ne _ _ _ _ h2]
      split
      · rw [getKey_setKey_ne _ _ _ _ h1]
      · rw [getKey_delKey_ne _ _ _ h1]

theorem getKey_genFm_id_of_file (f : FileRef)
    (hf : getKey item.data.metadata "file" = some (.file f)) :
    getKey (generateItemFrontmatter item) "id" = some (.val (.str f.basename)) := by
  unfold generateItemFrontmatter
  rw [getKey_delKey_ne _ _ _ (by decide)]
  rw [hf]
  exact getKey_setKey_self _ _ _

theorem getKey_genFm_id_of_no_file
    (hf : ∀ f : FileRef, getKey item.data.metadata "file" ≠ some (.file f)) :
    getKey (generateItemFrontmatter item) "id" =
      some (.val (.str
        (if (sanitizeTitle item.data.titleRaw).isEmpty then "untitled"
         else sanitizeTitle item.data.titleRaw))) := by
  unfold generateItemFrontmatter
  rw [getKey_delKey_ne _ _ _ (by decide)]
  cases hmv : getKey item.data.metadata "file" with
  | none =>
    simp only []
    exact getKey_setKey_self _ _ _
  | some mv =>
    cases mv with
    | val w =>
      simp only []
      exact getKey_setKey_self _ _ _
    | file f => exact absurd hmv (hf f)

theorem getKey_genFm_completed :
    getKey (generateItemFrontmatter item) "completed" =
      if item.data.checkChar = 'x' then some (.val (.bool true)) else none := by
  unfold generateItemFrontmatter
  rw [getKey_delKey_ne _ _ _ (by decide)]
  have step : ∀ (m : Metadata),
      getKey m "completed" =
        (if item.data.checkChar = 'x' then some (MetaValue.val (.bool true)) else none) →
      getKey
        (match getKey item.data.metadata "file" with
         | some (.file f) => setKey m "id" (.val (.str f.basename))
         | _ =>
           let s := sanitizeTitle item.data.titleRaw
           setKey m "id" (.val (.str (if s.isEmpty then "untitled" else s)))) "completed" =
        (if item.data.checkChar = 'x' then some (MetaValue.val (.bool true)) else none) := by
    intro m hm
    cases getKey item.data.metadata "file" with
    | none => rw [getKey_setKey_ne _ _ _ _ (by decide)]; exact hm
    | some mv =>
      cases mv with
      | val w => rw [getKey_setKey_ne _ _ _ _ (by decide)]; exact hm
      | file f => rw [getKey_setKey_ne _ _ _ _ (by decide)]; exact hm
  apply step
  rw [getKey_setKey_ne _ _ _ _ (by decide), getKey_setKey_ne _ _ _ _ (by decide),
      getKey_setKey_ne _ _ _ _ (by decide)]
  split
  · exact getKey_setKey_self _ _ _
  · exact getKey_delKey_self _ _

theorem getKey_genFm_parent_id :
    getKey (generateItemFrontmatter item) "parent_id" =
      some (.val (if item.data.parent_id.truthy then item.data.parent_id else .null)) := by
  unfold generateItemFrontmatter
  rw [getKey_delKey_ne _ _ _ (by decide)]
  have step : ∀ (m : Metadata),
      getKey m "parent_id" =
        some (MetaValue.val (if item.data.parent_id.truthy then item.data.parent_id else .null)) →
      getKey
        (match getKey item.data.metadata "file" with
         | some (.file f) => setKey m "id" (.val (.str f.basename))
         | _ =>
           let s := sanitizeTitle item.data.titleRaw
           setKey m "id" (.val (.str (if s.isEmpty then "untitled" else s)))) "parent_id" =
        some (MetaValue.val (if item.data.parent_id.truthy then item.data.parent_id else .null)) := by
    intro m hm
    cases getKey item.data.metadata "file" with
    | none => rw [getKey_setKey_ne _ _ _ _ (by decide)]; exact hm
    | some mv =>
      cases mv with
      | val w => rw [getKey_setKey_ne _ _ _ _ (by decide)]; exact hm
      | file f => rw [getKey_setKey_ne _ _ _ _ (by decide)]; exact hm
  apply step
  rw [getKey_setKey_ne _ _ _ _ (by decide), getKey_setKey_ne _ _ _ _ (by decide)]
  exact getKey_setKey_self _ _ _

theorem getKey_genFm_aliases_default
    (h : getKey item.data.metadata "aliases" = none) :
    getKey (generateItemFrontmatter item) "aliases" = some (.val (.list [])) := by
  unfold generateItemFrontmatter
  rw [getKey_delKey_ne _ _ _ (by decide)]
  have base :
      getKey (setKey (if item.data.checkChar = 'x'
                      then setKey item.data.metadata "completed" (.val (.bool true))
                      else delKey item.data.metadata "completed") "parent_id"
                (.val (if item.data.parent_id.truthy then item.data.parent_id else .null)))
          "aliases" = none := by
    rw [getKey_setKey_ne _ _ _ _ (by decide)]
    split
    · rw [getKey_setKey_ne _ _ _ _ (by decide)]; exact h
    · rw [getKey_delKey_ne _ _ _ (by decide)]; exact h
  have step : ∀ (m : Metadata),
      getKey m "aliases" = some (MetaValue.val (.list [])) →
      getKey
        (match getKey item.data.metadata "file" with
         | some (.file f) => setKey m "id" (.val (.str f.basename))
         | _ =>
           let s := sanitizeTitle item.data.titleRaw
           setKey m "id" (.val (.str (if s.isEmpty then "untitled" else s)))) "aliases" =
        some (MetaValue.val (.list [])) := by
    intro m hm
    cases getKey item.data.metadata "file" with
    | none => rw [getKey_setKey_ne _ _ _ _ (by decide)]; exact hm
    | some mv =>
      cases mv with
      | val w => rw [getKey_setKey_ne _ _ _ _ (by decide)]; exact hm
      | file f => rw [getKey_setKey_ne _ _ _ _ (by decide)]; exact hm
  apply step
  rw [getKey_setKey_ne _ _ _ _ (by decide), base]
  exact getKey_setKey_self _ _ _

theorem getKey_genFm_tags_default
    (h : getKey item.data.metadata "tags" = none) :
    getKey (generateItemFrontmatter item) "tags" = some (.val (.list [])) := by
  unfold generateItemFrontmatter
  rw [getKey_delKey_ne _ _ _ (by decide)]
  have base :
      getKey (setKey (setKey (if item.data.checkChar = 'x'
                      then setKey item.data.metadata "completed" (.val (.bool true))
                      else delKey item.data.metadata "completed") "parent_id"
                (.val (if item.data.parent_id.truthy then item.data.parent_id else .null)))
              "aliases"
              (match getKey (setKey (if item.data.checkChar = 'x'
                      then setKey item.data.metadata "completed" (.val (.bool true))
                      else delKey item.data.metadata "completed") "parent_id"
                (.val (if item.data.parent_id.truthy then item.data.parent_id else .null)))
                      "aliases" with
               | some m => if m.truthy then m else .val (.list [])
               | none => .val (.list [])))
          "tags" = none := by
    rw [getKey_setKey_ne _ _ _ _ (by decide), getKey_setKey_ne _ _ _ _ (by decide)]
    split
    · rw [getKey_setKey_ne _ _ _ _ (by decide)]; exact h
    · rw [getKey_delKey_ne _ _ _ (by decide)]; exact h
  have step : ∀ (m : Metadata),
      getKey m "tags" = some (MetaValue.val (.list [])) →
      getKey
        (match getKey item.data.metadata "file" with
         | some (.file f) => setKey m "id" (.val (.str f.basename))
         | _ =>
           let s := sanitizeTitle item.data.titleRaw
           setKey m "id" (.val (.str (if s.isEmpty then "untitled" else s)))) "tags" =
        some (MetaValue.val (.list [])) := by
    intro m hm
    cases getKey item.data.metadata "file" with
    | none => rw [getKey_setKey_ne _ _ _ _ (by decide)]; exact hm
    | some mv =>
      cases mv with
      | val w => rw [getKey_setKey_ne _ _ _ _ (by decide)]; exact hm
      | file f => rw [getKey_setKey_ne _ _ _ _ (by decide)]; exact hm
  apply step
  rw [base]
  exact getKey_setKey_self _ _ _

end GenLemmas

/-! ## Lemmas about the filename probe and the save loop -/

section SaveLemmas

theorem allocLoop_eq_first_free (v : Vault) (col base : String) (k₀ : Nat) :
    ∀ (fuel k : Nat), k ≤ k₀ → k₀ < k + fuel →
      v.fileTaken ⟨col, base ++ "_" ++ toString k₀⟩ = false →
      (∀ j, k ≤ j → j < k₀ → v.fileTaken ⟨col, base ++ "_" ++ toString j⟩ = true) →
      allocLoop v col base fuel k = ⟨col, base ++ "_" ++ toString k₀⟩ := by
  intro fuel
  induction fuel with
  | zero => intro k h1 h2 _ _; omega
  | succ n ih =>
    intro k h1 h2 hfree hbelow
    by_cases hk : k = k₀
    · subst hk
      simp [allocLoop, hfree]
    · have hkk : k < k₀ := lt_of_le_of_ne h1 hk
      have htaken := hbelow k le_rfl hkk
      simp only [allocLoop, htaken, if_pos]
      exact ih (k + 1) hkk (by omega) hfree (fun j hj hj' => hbelow j (by omega) hj')

theorem saveItem_titleRaw (item : Item) (col : String) (v : Vault) :
    (saveItemToCorrectFolder item col v).1.data.titleRaw = item.data.titleRaw := by
  unfold saveItemToCorrectFolder
  cases hm : getKey item.data.metadata "file" with
  | none => simp [createNewItemFile, setItemFile]
  | some mv =>
    cases mv with
    | val w => simp [createNewItemFile, setItemFile]
    | file f =>
      by_cases hc : f.folder = col
      · simp [hc]
      · simp only [hc, if_neg, ite_false]
        unfold moveItemToNewColumn
        dsimp only
        split
        · split <;> rfl
        · split <;> rfl

theorem saveItem_title (item : Item) (col : String) (v : Vault) :
    (saveItemToCorrectFolder item col v).1.data.title = item.data.title := by
  unfold saveItemToCorrectFolder
  cases hm : getKey item.data.metadata "file" with
  | none => simp [createNewItemFile, setItemFile]
  | some mv =>
    cases mv with
    | val w => simp [createNewItemFile, setItemFile]
    | file f =>
      by_cases hc : f.folder = col
      · simp [hc]
      · simp only [hc, if_neg, ite_false]
        unfold moveItemToNewColumn
        dsimp only
        split
        · split <;> rfl
        · split <;> rfl

theorem saveItemsInLane_titleRaw (fails : Item → Bool) (col : String) :
    ∀ (items : List Item) (v : Vault),
      (saveItemsInLane fails col items v).1.map (fun i => i.data.titleRaw) =
        items.map (fun i => i.data.titleRaw) := by
  intro items
  induction items with
  | nil => intro v; rfl
  | cons item rest ih =>
    intro v
    by_cases hf : fails item
    · simp [saveItemsInLane, hf, ih]
    · simp [saveItemsInLane, hf, ih, saveItem_titleRaw]

theorem saveLanes_shape (fails : Item → Bool) :
    ∀ (lanes : List Lane) (v : Vault),
      (saveLanes fails lanes v).1.map
          (fun l => (l.data.title, l.children.map (fun i => i.data.titleRaw))) =
        lanes.map (fun l => (l.data.title, l.children.map (fun i => i.data.titleRaw))) := by
  intro lanes
  induction lanes with
  | nil => intro v; rfl
  | cons lane rest ih =>
    intro v
    simp [saveLanes, processLane, ih, saveItemsInLane_titleRaw]

end SaveLemmas

/-! ## Lemmas for the whole-board round trip -/

section RoundTripLemmas

theorem saveItem_update (item : Item) (f : FileRef) (col : String) (w : Vault)
    (hf : getKey item.data.metadata "file" = some (.file f)) (hcol : f.folder = col) :
    saveItemToCorrectFolder item col w = (item, updateItemFileContent item f w) := by
  unfold saveItemToCorrectFolder
  rw [hf]
  simp [hcol]

theorem loadItem_metadata (f : FileRef) (fm : List (String × FmValue))
    (ast : List BlockNode) (it : Item) (h : loadItemFromFile f fm ast = some it) :
    it.data.metadata = setKey (fmMap fm) "file" (.file f) := by
  rcases Option.map_eq_some'.mp h with ⟨t, _, hb⟩
  subst hb
  rfl

theorem loadItem_backref (f : FileRef) (fm : List (String × FmValue))
    (ast : List BlockNode) (it : Item) (h : loadItemFromFile f fm ast = some it) :
    getKey it.data.metadata "file" = some (.file f) := by
  rw [loadItem_metadata f fm ast it h]
  exact getKey_setKey_self _ _ _

theorem loadItem_genFm_fields (f : FileRef) (fm : List (String × FmValue))
    (ast : List BlockNode) (it : Item) (hload : loadItemFromFile f fm ast = some it) :
    getKey (generateItemFrontmatter it) "id" = some (.val (.str f.basename)) ∧
    (∀ k, k ∉ (["completed", "parent_id", "aliases", "tags", "id", "file"] : List String) →
      getKey (generateItemFrontmatter it) k = (lookupFm fm k).map MetaValue.val) := by
  have hmeta := loadItem_metadata f fm ast it hload
  refine ⟨getKey_genFm_id_of_file it f (loadItem_backref f fm ast it hload), ?_⟩
  intro k hk
  simp only [List.mem_cons, List.not_mem_nil, or_false, not_or] at hk
  obtain ⟨h1, h2, h3, h4, h5, h6⟩ := hk
  rw [getKey_genFm_other it k h1 h2 h3 h4 h5 h6, hmeta,
    getKey_setKey_ne _ _ _ _ h6, getKey_fmMap]

theorem fileTakenList_iff_mem (l : List (FileRef × String)) (g : FileRef) :
    fileTakenList l g = true ↔ g ∈ l.map Prod.fst := by
  induction l with
  | nil => simp [fileTakenList]
  | cons e rest ih =>
    obtain ⟨a, s⟩ := e
    by_cases ha : a = g
    · simp [fileTakenList, ha]
    · simpa [fileTakenList, ha, Ne.symm ha] using ih

theorem fileTaken_congr_keys (w₁ w₂ : Vault) (g : FileRef)
    (h : w₁.files.map Prod.fst = w₂.files.map Prod.fst) :
    w₁.fileTaken g = w₂.fileTaken g := by
  apply Bool.eq_iff_iff.mpr
  rw [Vault.fileTaken, Vault.fileTaken, fileTakenList_iff_mem, fileTakenList_iff_mem, h]

theorem fileTaken_modify (w : Vault) (f : FileRef) (c : String) (g : FileRef) :
    (w.modify f c).fileTaken g = w.fileTaken g :=
  fileTaken_congr_keys _ _ g (modify_keys w f c)

theorem cleanupColumnFolder_no_delete (w : Vault) (col : String) (exp : List String)
    (h : ∀ e ∈ w.files, (e : FileRef × String).1.folder = col → e.1.name ∈ exp) :
    cleanupColumnFolder w col exp = w := by
  unfold cleanupColumnFolder
  split
  · have hfilter : (w.files.filter (fun e => !(e.1.folder = col && e.1.name ∉ exp))) =
        w.files := by
      apply List.filter_eq_self.mpr
      intro e he
      by_cases hc : e.1.folder = col
      · simp [hc, h e he hc]
      · simp [hc]
    rw [hfilter]
  · rfl

theorem saveItemsInLane_update_all (col : String) :
    ∀ (items : List Item) (w : Vault),
      (∀ it ∈ items, ∃ f : FileRef,
        getKey it.data.metadata "file" = some (.file f) ∧ f.folder = col) →
      ((saveItemsInLane (fun _ => false) col items w).1 = items ∧
       (saveItemsInLane (fun _ => false) col items w).2.1.files.map Prod.fst =
         w.files.map Prod.fst ∧
       (∀ it ∈ items, ∀ f : FileRef, getKey it.data.metadata "file" = some (.file f) →
         f.name ∈ (saveItemsInLane (fun _ => false) col items w).2.2.1) ∧
       (∀ g : FileRef, (∀ it ∈ items, ∀ f : FileRef,
           getKey it.data.metadata "file" = some (.file f) → f ≠ g) →
         (saveItemsInLane (fun _ => false) col items w).2.1.read g = w.read g) ∧
       (∀ g : FileRef, w.fileTaken g = true →
         (∃ it ∈ items, getKey it.data.metadata "file" = some (.file g)) →
         ∃ it ∈ items, getKey it.data.metadata "file" = some (.file g) ∧
           (saveItemsInLane (fun _ => false) col items w).2.1.read g =
             some (generateItemFileContent it))) := by
  intro items
  induction items with
  | nil =>
    intro w _
    refine ⟨rfl, rfl, by simp, fun g _ => rfl, by simp⟩
  | cons item rest ih =>
    intro w hyp
    obtain ⟨f₀, hf, hcol⟩ := hyp item (List.mem_cons_self item rest)
    have hyprest : ∀ it ∈ rest, ∃ f : FileRef,
        getKey it.data.metadata "file" = some (.file f) ∧ f.folder = col :=
      fun it hit => hyp it (List.mem_cons_of_mem _ hit)
    have hsave := saveItem_update item f₀ col w hf hcol
    have hstep : saveItemsInLane (fun _ => false) col (item :: rest) w =
        (item :: (saveItemsInLane (fun _ => false) col rest
            (w.modify f₀ (generateItemFileContent item))).1,
         (saveItemsInLane (fun _ => false) col rest
            (w.modify f₀ (generateItemFileContent item))).2.1,
         f₀.name :: (saveItemsInLane (fun _ => false) col rest
            (w.modify f₀ (generateItemFileContent item))).2.2.1,
         SaveEvent.itemSave col item.id ::
           (saveItemsInLane (fun _ => false) col rest
              (w.modify f₀ (generateItemFileContent item))).2.2.2) := by
      simp only [saveItemsInLane, hsave, hf]
      rfl
    have ihr := ih (w.modify f₀ (generateItemFileContent item)) hyprest
    rw [hstep]
    refine ⟨?_, ?_, ?_, ?_, ?_⟩
    · simpa using ihr.1
    · exact ihr.2.1.trans (modify_keys w f₀ _)
    · intro it hit f hfit
      rcases List.mem_cons.mp hit with rfl | hit
      · have : f = f₀ := by
          rw [hf] at hfit
          cases hfit
          rfl
        subst this
        exact List.mem_cons_self _ _
      · exact List.mem_cons_of_mem _ (ihr.2.2.1 it hit f hfit)
    · intro g hg
      have hrest : ∀ it ∈ rest, ∀ f : FileRef,
          getKey it.data.metadata "file" = some (.file f) → f ≠ g :=
        fun it hit f hfi => hg it (List.mem_cons_of_mem _ hit) f hfi
      have hne : f₀ ≠ g := hg item (List.mem_cons_self _ _) f₀ hf
      exact (ihr.2.2.2.1 g hrest).trans (read_modify_other w f₀ _ g (Ne.symm hne))
    · intro g hgtaken hex
      by_cases hrest : ∃ it ∈ rest, getKey it.data.metadata "file" = some (.file g)
      · have htaken₁ : (w.modify f₀ (generateItemFileContent item)).fileTaken g = true := by
          rw [fileTaken_modify]
          exact hgtaken
        obtain ⟨it, hit, hback, hread⟩ := ihr.2.2.2.2 g htaken₁ hrest
        exact ⟨it, List.mem_cons_of_mem _ hit, hback, hread⟩
      · rcases hex with ⟨it0, hit0, hback0⟩
        rcases List.mem_cons.mp hit0 with rfl | hmem
        · have hgf : g = f₀ := by
            rw [hf] at hback0
            cases hback0
            rfl
          subst hgf
          have hnone : ∀ it ∈ rest, ∀ f : FileRef,
              getKey it.data.metadata "file" = some (.file f) → f ≠ g :=
            fun it hit f hfi he => hrest ⟨it, hit, he ▸ hfi⟩
          refine ⟨it0, List.mem_cons_self _ _, hback0, ?_⟩
          rw [ihr.2.2.2.1 g hnone]
          exact read_modify_self w g _ hgtaken
        · exact absurd ⟨it0, hmem, hback0⟩ hrest

theorem processLane_update_all (v : Vault) (lane : Lane) (w : Vault)
    (hok1 : ∀ it ∈ lane.children, ∃ f : FileRef,
      getKey it.data.metadata "file" = some (.file f) ∧ f.folder = lane.data.title)
    (hok2 : ∀ g : FileRef, v.fileTaken g = true → g.folder = lane.data.title →
      ∃ it ∈ lane.children, getKey it.data.metadata "file" = some (.file g))
    (hkeys : w.files.map Prod.fst = v.files.map Prod.fst) :
    (processLane (fun _ => false) lane w).2.1.files.map Prod.fst = w.files.map Prod.fst ∧
    (∀ g : FileRef, (∀ it ∈ lane.children, ∀ f : FileRef,
        getKey it.data.metadata "file" = some (.file f) → f ≠ g) →
      (processLane (fun _ => false) lane w).2.1.read g = w.read g) ∧
    (∀ g : FileRef, w.fileTaken g = true →
      (∃ it ∈ lane.children, getKey it.data.metadata "file" = some (.file g)) →
      ∃ it ∈ lane.children, getKey it.data.metadata "file" = some (.file g) ∧
        (processLane (fun _ => false) lane w).2.1.read g =
          some (generateItemFileContent it)) := by
  have hitems := saveItemsInLane_update_all lane.data.title lane.children w hok1
  have hclean : cleanupColumnFolder
      (saveItemsInLane (fun _ => false) lane.data.title lane.children w).2.1
      lane.data.title
      (saveItemsInLane (fun _ => false) lane.data.title lane.children w).2.2.1 =
      (saveItemsInLane (fun _ => false) lane.data.title lane.children w).2.1 := by
    apply cleanupColumnFolder_no_delete
    intro e he hfold
    have hmem : e.1 ∈ (saveItemsInLane (fun _ => false) lane.data.title
        lane.children w).2.1.files.map Prod.fst := List.mem_map_of_mem Prod.fst he
    rw [hitems.2.1, hkeys] at hmem
    have htaken : v.fileTaken e.1 = true := (fileTakenList_iff_mem v.files e.1).mpr hmem
    obtain ⟨it, hit, hback⟩ := hok2 e.1 htaken hfold
    exact hitems.2.2.1 it hit e.1 hback
  have hpl : (processLane (fun _ => false) lane w).2.1 =
      (saveItemsInLane (fun _ => false) lane.data.title lane.children w).2.1 :=
    hclean
  rw [hpl]
  exact ⟨hitems.2.1, hitems.2.2.2.1, hitems.2.2.2.2⟩

theorem saveLanes_update_all (v : Vault) :
    ∀ (lanes : List Lane) (w : Vault),
      (∀ lane ∈ lanes,
        (∀ it ∈ lane.children, ∃ f : FileRef,
          getKey it.data.metadata "file" = some (.file f) ∧ f.folder = lane.data.title) ∧
        (∀ g : FileRef, v.fileTaken g = true → g.folder = lane.data.title →
          ∃ it ∈ lane.children, getKey it.data.metadata "file" = some (.file g))) →
      (lanes.map (fun l => l.data.title)).Nodup →
      w.files.map Prod.fst = v.files.map Prod.fst →
      ((saveLanes (fun _ => false) lanes w).2.1.files.map Prod.fst =
         w.files.map Prod.fst ∧
       (∀ g : FileRef, (∀ lane ∈ lanes, g.folder ≠ lane.data.title) →
         (saveLanes (fun _ => false) lanes w).2.1.read g = w.read g) ∧
       (∀ lane ∈ lanes, ∀ g : FileRef, v.fileTaken g = true →
         g.folder = lane.data.title →
         ∃ it ∈ lane.children, getKey it.data.metadata "file" = some (.file g) ∧
           (saveLanes (fun _ => false) lanes w).2.1.read g =
             some (generateItemFileContent it))) := by
  intro lanes
  induction lanes with
  | nil =>
    intro w _ _ _
    refine ⟨rfl, fun g _ => rfl, by simp⟩
  | cons lane rest ih =>
    intro w hok hnodup hkeys
    obtain ⟨hok1, hok2⟩ := hok lane (List.mem_cons_self lane rest)
    have hokrest : ∀ l ∈ rest, _ := fun l hl => hok l (List.mem_cons_of_mem _ hl)
    have hnodup' : (∀ x ∈ rest, ¬x.data.title = lane.data.title) ∧
        (List.map (fun l => l.data.title) rest).Nodup := by simpa using hnodup
    have hP := processLane_update_all v lane w hok1 hok2 hkeys
    have hkeys₁ : (processLane (fun _ => false) lane w).2.1.files.map Prod.fst =
        v.files.map Prod.fst := hP.1.trans hkeys
    have ihr := ih (processLane (fun _ => false) lane w).2.1 hokrest hnodup'.2 hkeys₁
    have hstep : saveLanes (fun _ => false) (lane :: rest) w =
        ((processLane (fun _ => false) lane w).1 ::
           (saveLanes (fun _ => false) rest (processLane (fun _ => false) lane w).2.1).1,
         (saveLanes (fun _ => false) rest (processLane (fun _ => false) lane w).2.1).2.1,
         (processLane (fun _ => false) lane w).2.2 ++
           (saveLanes (fun _ => false) rest (processLane (fun _ => false) lane w).2.1).2.2) := by
      simp only [saveLanes]
    rw [hstep]
    refine ⟨ihr.1.trans hP.1, ?_, ?_⟩
    · intro g hg
      have hgrest : ∀ l ∈ rest, g.folder ≠ l.data.title :=
        fun l hl => hg l (List.mem_cons_of_mem _ hl)
      have hglane : ∀ it ∈ lane.children, ∀ f : FileRef,
          getKey it.data.metadata "file" = some (.file f) → f ≠ g := by
        intro it hit f hfi he
        obtain ⟨f', hf', hfold'⟩ := hok1 it hit
        rw [hfi] at hf'
        cases hf'
        exact hg lane (List.mem_cons_self _ _) (by rw [← he, hfold'])
      exact (ihr.2.1 g hgrest).trans (hP.2.1 g hglane)
    · intro l hl g htaken hfold
      rcases List.mem_cons.mp hl with rfl | hl
      · have hwtaken : w.fileTaken g = true := by
          rw [fileTaken_congr_keys w v g hkeys]
          exact htaken
        obtain ⟨it, hit, hback, hread⟩ :=
          hP.2.2 g hwtaken (hok2 g htaken hfold)
        refine ⟨it, hit, hback, ?_⟩
        have hgrest : ∀ l' ∈ rest, g.folder ≠ l'.data.title := by
          intro l' hl' he
          exact hnodup'.1 l' hl' (he.symm.trans hfold)
        rw [ihr.2.1 g hgrest, hread]
      · exact ihr.2.2 l hl g htaken hfold

theorem loadColumn_children_mem (name : String) (docs : List ItemSource) (it : Item)
    (h : it ∈ (loadColumn name docs).children) :
    ∃ e ∈ docs, ∃ d : ParsedDoc, e.2 = some d ∧
      loadItemFromFile e.1 d.frontmatter d.ast = some it := by
  have hmem : it ∈ docs.filterMap (fun e =>
      match e.2 with
      | none => none
      | some d => loadItemFromFile e.1 d.frontmatter d.ast) :=
    (List.perm_insertionSort itemLe _).mem_iff.mp h
  rcases List.mem_filterMap.mp hmem with ⟨e, he, hφ⟩
  cases hd : e.2 with
  | none => rw [hd] at hφ; cases hφ
  | some d =>
    rw [hd] at hφ
    exact ⟨e, he, d, hd, hφ⟩

theorem loadColumn_children_mem_of (name : String) (docs : List ItemSource)
    (e : ItemSource) (d : ParsedDoc) (it : Item) (he : e ∈ docs) (hd : e.2 = some d)
    (hl : loadItemFromFile e.1 d.frontmatter d.ast = some it) :
    it ∈ (loadColumn name docs).children := by
  apply (List.perm_insertionSort itemLe _).mem_iff.mpr
  apply List.mem_filterMap.mpr
  refine ⟨e, he, ?_⟩
  rw [hd]
  exact hl

end RoundTripLemmas

/-! ## Claim C6 — layout detection -/

/-- Claim C6: the folder layout is detected if and only if the board root
has at least one direct child subdirectory; a subdirectory counts whatever
its file list (in particular when empty), and a root whose children are all
files yields `false` (the detector is total, so no error). -/
theorem hasFolderStructure_iff_exists_subfolder (children : List FsChild) :
    hasFolderStructure children = true ↔
      ∃ name mdFiles, FsChild.folder name mdFiles ∈ children := by
  unfold hasFolderStructure
  rw [List.any_eq_true]
  constructor
  · rintro ⟨c, hc, hf⟩
    cases c with
    | folder n fs => exact ⟨n, fs, hc⟩
    | file n e => simp [FsChild.isFolder] at hf
  · rintro ⟨n, fs, h⟩
    exact ⟨.folder n fs, h, rfl⟩

/-- Witness for claim C6: a root holding one empty subfolder is detected; a
root holding only files is not. -/
theorem hasFolderStructure_iff_witness :
    hasFolderStructure [FsChild.folder "Todo" []] = true ∧
    hasFolderStructure [FsChild.file "board" "md"] = false :=
  ⟨(hasFolderStructure_iff_exists_subfolder [FsChild.folder "Todo" []]).mpr
      ⟨"Todo", [], List.mem_singleton.mpr rfl⟩,
   rfl⟩

/-! ## Claim C10 — the board descriptor text -/

/-- Claim C10: the descriptor text returned by `boardToMd` depends only on
the board's front-matter mapping, and it is a front-matter block followed by
the fixed boilerplate body; the settings mapping, the columns and the items
do not influence the returned string. -/
theorem boardToMd_depends_only_on_frontmatter (b₁ b₂ : Board)
    (h : b₁.data.frontmatter = b₂.data.frontmatter) :
    boardToMd b₁ = boardToMd b₂ ∧
    ∃ yamlText, boardToMd b₁ =
      "---\n" ++ yamlText ++ "---\n\n" ++
      "# Board\n\n" ++
      "This board uses folder structure for columns and items.\n\n" ++
      "Each folder represents a column, and each .md file in the folder represents an item.\n" := by
  constructor
  · unfold boardToMd
    rw [h]
  · exact ⟨_, rfl⟩

/-- Example lane used by the C10 witness. -/
def laneC10 : Lane :=
  { id := "L1", data := { title := "Todo" }, children := [] }

/-- First board of the C10 witness: no settings, no columns. -/
def boardC10a : Board :=
  { id := "b1"
    data := { settings := [], frontmatter := [("theme", .str "dark")] }
    children := [] }

/-- Second board of the C10 witness: different settings and columns, same
front matter. -/
def boardC10b : Board :=
  { id := "b2"
    data := { settings := [("hide", .bool true)], frontmatter := [("theme", .str "dark")] }
    children := [laneC10] }

/-- Witness for claim C10: two boards that differ in settings, columns and
identifier but share front matter get the same descriptor text. -/
theorem boardToMd_depends_only_on_frontmatter_witness :
    boardC10a.data.frontmatter = boardC10b.data.frontmatter ∧
    boardToMd boardC10a = boardToMd boardC10b :=
  ⟨rfl, (boardToMd_depends_only_on_frontmatter boardC10a boardC10b rfl).1⟩

/-! ## Claim C7 — title precedence and checked-state derivation -/

/-- Definition following the claim's words (not the source): the text of the
first heading block anywhere in the parsed body. -/
def claimFirstHeadingText : List BlockNode → Option String
  | [] => none
  | .heading cs :: _ => some (headingText cs)
  | _ :: rest => claimFirstHeadingText rest

/-- Claim C7 (amended): for a successfully hydrated item, the title is the
front-matter `title` when that is a non-empty string; when `title` is absent
or falsy, it is the text of the first body block provided that block is a
heading (a heading that is not the first block is not consulted), else the
file's base name; a truthy non-string `title` makes hydration fail and the
file is skipped.  Checked is true exactly when front-matter
`completed === true` or `status === "completed"` (exact, case-sensitive) or
`done === true`, and the check marker is `x` when checked, a space
otherwise. -/
theorem loadItem_title_and_checked (f : FileRef) (fm : List (String × FmValue))
    (ast : List BlockNode) :
    (∀ s : String, lookupFm fm "title" = some (.str s) → s.isEmpty = false →
      (loadItemFromFile f fm ast).map (fun it => it.data.title) = some s) ∧
    ((∀ w, lookupFm fm "title" = some w → w.truthy = false) →
      (∀ cs rest, ast = BlockNode.heading cs :: rest →
        (loadItemFromFile f fm ast).map (fun it => it.data.title) =
          some (headingText cs)) ∧
      ((∀ cs rest, ast ≠ BlockNode.heading cs :: rest) →
        (loadItemFromFile f fm ast).map (fun it => it.data.title) = some f.basename)) ∧
    (∀ w, lookupFm fm "title" = some w → w.truthy = true → (∀ s, w ≠ .str s) →
      loadItemFromFile f fm ast = none) ∧
    (∀ it, loadItemFromFile f fm ast = some it →
      (it.data.checked = true ↔
        (lookupFm fm "completed" = some (.bool true) ∨
         lookupFm fm "status" = some (.str "completed") ∨
         lookupFm fm "done" = some (.bool true))) ∧
      it.data.checkChar = (if it.data.checked = true then 'x' else ' ')) := by
  refine ⟨?_, ?_, ?_, ?_⟩
  · intro s hs hne
    unfold loadItemFromFile loadTitle
    rw [hs]
    simp [hne, hydratedItem]
  · intro hfalsy
    have htitle : loadTitle f fm ast = some (fallbackTitle f ast) := by
      unfold loadTitle
      cases hv : lookupFm fm "title" with
      | none => rfl
      | some w =>
        have hw := hfalsy w hv
        cases w with
        | str s =>
          have : s.isEmpty = true := by simpa [FmValue.truthy] using hw
          simp [this]
        | null => simp [hw]
        | bool b => simp [hw]
        | num n => simp [FmValue.truthy] at hw; simp [FmValue.truthy, hw]
        | list xs => simp [FmValue.truthy] at hw
    constructor
    · intro cs rest hast
      subst hast
      unfold loadItemFromFile
      rw [htitle]
      simp [fallbackTitle, hydratedItem]
    · intro hnothead
      unfold loadItemFromFile
      rw [htitle]
      have : fallbackTitle f ast = f.basename := by
        unfold fallbackTitle
        cases ast with
        | nil => rfl
        | cons b rest =>
          cases b with
          | heading cs => exact absurd rfl (hnothead cs rest)
          | paragraph => rfl
          | nonheading => rfl
      simp [this, hydratedItem]
  · intro w hv htruthy hnstr
    unfold loadItemFromFile loadTitle
    rw [hv]
    cases w with
    | str s => exact absurd rfl (hnstr s)
    | null => simp [FmValue.truthy] at htruthy
    | bool b => simp [FmValue.truthy] at htruthy; simp [FmValue.truthy, htruthy]
    | num n => simp [htruthy]
    | list xs => simp [FmValue.truthy]
  · intro it hit
    rcases Option.map_eq_some'.mp hit with ⟨t, _, hb⟩
    subst hb
    constructor
    · simp [hydratedItem, isCompletedFm]
    · by_cases hc : isCompletedFm fm
      · simp [hydratedItem, hc]
      · simp [hydratedItem, hc]

/-- Witness source data for C7: a front-matter title `Foo` beats the body
heading `Bar`. -/
def fmC7 : List (String × FmValue) := [("title", .str "Foo"), ("status", .str "completed")]

/-- Witness for claim C7: with front-matter title `Foo` and body heading
`Bar`, the hydrated title is `Foo`, and `status: completed` checks the item. -/
theorem loadItem_title_and_checked_witness :
    (loadItemFromFile ⟨"A", "note"⟩ fmC7 [BlockNode.heading [InlineNode.text "Bar"]]).map
        (fun it => it.data.title) = some "Foo" ∧
    (loadItemFromFile ⟨"A", "note"⟩ fmC7 [BlockNode.heading [InlineNode.text "Bar"]]).map
        (fun it => it.data.checked) = some true := by
  have h := loadItem_title_and_checked ⟨"A", "note"⟩ fmC7
    [BlockNode.heading [InlineNode.text "Bar"]]
  refine ⟨h.1 "Foo" rfl rfl, ?_⟩
  cases hit : loadItemFromFile ⟨"A", "note"⟩ fmC7 [BlockNode.heading [InlineNode.text "Bar"]] with
  | none => exact absurd (h.1 "Foo" rfl rfl) (by simp [hit])
  | some it =>
    have := (h.2.2.2 it hit).1.mpr (Or.inr (Or.inl rfl))
    simp [this]

/-- Counterexample for claim C7 as frozen: the body is a paragraph followed
by the heading `Bar`; the first heading block of the body is `Bar`, but the
code only consults the first block, so the hydrated title falls back to the
base name `note`. -/
theorem loadItem_first_heading_counterexample :
    (loadItemFromFile ⟨"A", "note"⟩ []
        [BlockNode.paragraph, BlockNode.heading [InlineNode.text "Bar"]]).map
        (fun it => it.data.title) = some "note" ∧
    claimFirstHeadingText [BlockNode.paragraph, BlockNode.heading [InlineNode.text "Bar"]] =
      some "Bar" ∧
    ("note" : String) ≠ "Bar" := by
  refine ⟨rfl, rfl, by decide⟩

/-! ## Claim C5 — the front matter written for an item -/

/-- Claim C5 (amended): every written item front-matter block is a full copy
of the item's metadata without the `file` back-reference; it carries
`completed: true` exactly when the item is checked (the key is absent when
unchecked); `parent_id` is always present (a truthy value, or explicit
null); `aliases` and `tags` default to empty sequences when absent; `id` is
the back-reference file's base name when the item has one — hence, for
update and move, the base name of the file actually written — and otherwise
the sanitized title (or `untitled`), which matches the file actually written
only when no collision suffix was needed; the block is followed by a blank
body. -/
theorem generateItemFileContent_spec (item : Item)
    (hcc : item.data.checkChar = 'x' ↔ item.data.checked = true) :
    getKey (generateItemFrontmatter item) "file" = none ∧
    (∀ k, k ∉ (["completed", "parent_id", "aliases", "tags", "id", "file"] : List String) →
      getKey (generateItemFrontmatter item) k = getKey item.data.metadata k) ∧
    getKey (generateItemFrontmatter item) "completed" =
      (if item.data.checked = true then some (MetaValue.val (.bool true)) else none) ∧
    getKey (generateItemFrontmatter item) "parent_id" =
      some (.val (if item.data.parent_id.truthy then item.data.parent_id else .null)) ∧
    (getKey item.data.metadata "aliases" = none →
      getKey (generateItemFrontmatter item) "aliases" = some (.val (.list []))) ∧
    (getKey item.data.metadata "tags" = none →
      getKey (generateItemFrontmatter item) "tags" = some (.val (.list []))) ∧
    (∀ f0 : FileRef, getKey item.data.metadata "file" = some (.file f0) →
      getKey (generateItemFrontmatter item) "id" = some (.val (.str f0.basename))) ∧
    ((∀ f0 : FileRef, getKey item.data.metadata "file" ≠ some (.file f0)) →
      getKey (generateItemFrontmatter item) "id" =
        some (.val (.str (if (sanitizeTitle item.data.titleRaw).isEmpty then "untitled"
                          else sanitizeTitle item.data.titleRaw)))) ∧
    generateItemFileContent item =
      "---\n" ++ stringifyYaml (generateItemFrontmatter item) ++ "---\n\n" := by
  refine ⟨getKey_genFm_file item, ?_, ?_, getKey_genFm_parent_id item,
    getKey_genFm_aliases_default item, getKey_genFm_tags_default item,
    fun f0 hf => getKey_genFm_id_of_file item f0 hf,
    getKey_genFm_id_of_no_file item, rfl⟩
  · intro k hk
    simp only [List.mem_cons, List.not_mem_nil, or_false, not_or] at hk
    obtain ⟨h1, h2, h3, h4, h5, h6⟩ := hk
    exact getKey_genFm_other item k h1 h2 h3 h4 h5 h6
  · rw [getKey_genFm_completed item]
    by_cases hx : item.data.checkChar = 'x'
    · rw [if_pos hx, if_pos (hcc.mp hx)]
    · rw [if_neg hx, if_neg (fun hchk => hx (hcc.mpr hchk))]

/-- Concrete item for the C5 witness: checked, one custom metadata key, a
back-reference, no aliases or tags. -/
def itemC5 : Item :=
  { id := "w5"
    data :=
      { checked := true
        checkChar := 'x'
        title := "Task"
        titleRaw := "Task"
        titleSearch := "task"
        metadata := [("priority", .val (.num 2)), ("file", .file ⟨"Doing", "Task"⟩)]
        parent_id := .null } }

/-- Witness for claim C5: on `itemC5` the generated block keeps `priority`,
drops the back-reference, carries `completed: true`, an explicit null
`parent_id`, empty `aliases`, and `id: Task`. -/
theorem generateItemFileContent_spec_witness :
    (itemC5.data.checkChar = 'x' ↔ itemC5.data.checked = true) ∧
    getKey (generateItemFrontmatter itemC5) "file" = none ∧
    getKey (generateItemFrontmatter itemC5) "priority" = some (.val (.num 2)) ∧
    getKey (generateItemFrontmatter itemC5) "completed" = some (.val (.bool true)) ∧
    getKey (generateItemFrontmatter itemC5) "aliases" = some (.val (.list [])) ∧
    getKey (generateItemFrontmatter itemC5) "id" = some (.val (.str "Task")) := by
  have h := generateItemFileContent_spec itemC5 (by decide)
  refine ⟨by decide, h.1, ?_, ?_, ?_, ?_⟩
  · rw [h.2.1 "priority" (by decide)]
    rfl
  · rw [h.2.2.1]
    rfl
  · exact h.2.2.2.2.1 rfl
  · exact h.2.2.2.2.2.2.1 ⟨"Doing", "Task"⟩ rfl

/-- Concrete new item for the C5 counterexample: no back-reference, title
`t`, saved into a column whose folder already holds a file `t.md`. -/
def itemC5cx : Item :=
  { id := "n5"
    data :=
      { checked := false
        checkChar := ' '
        title := "t"
        titleRaw := "t"
        titleSearch := "t"
        metadata := []
        parent_id := .null } }

/-- Vault for the C5 counterexample. -/
def vaultC5cx : Vault :=
  { folders := ["Todo"], files := [(⟨"Todo", "t"⟩, "other item")] }

/-- Counterexample for claim C5 as frozen: the colliding create writes the
new item's file at `Todo/t_1.md`, but the emitted `id` is `t`, not the base
name `t_1` of the file actually written. -/
theorem generateItemFileContent_id_counterexample :
    getKey (createNewItemFile itemC5cx "Todo" vaultC5cx).1.data.metadata "file" =
      some (.file ⟨"Todo", "t_1"⟩) ∧
    (createNewItemFile itemC5cx "Todo" vaultC5cx).2.read ⟨"Todo", "t_1"⟩ =
      some (generateItemFileContent itemC5cx) ∧
    getKey (generateItemFrontmatter itemC5cx) "id" = some (.val (.str "t")) ∧
    ("t" : String) ≠ "t_1" := by
  refine ⟨by decide, by decide, by decide, by decide⟩

/-! ## Claim C1 — the unchanged round trip -/

/-- Claim C1 (amended): hydrating a board whose item files all parse and
saving it again with no in-memory edits alters no existing file's path (the
save neither creates, renames nor deletes any file); every file lying under
a board column is rewritten in place with the regenerated front-matter block
of the item hydrated from that very file; and in that regenerated block `id`
is rewritten to the current file's base name while every field outside the
normalization set `completed`, `parent_id`, `aliases`, `tags`, `id`, `file`
is an exact copy of the hydrated front matter.  The hypotheses record the
on-disk reading of the board root: every file of a column folder appears
among that column's parsed documents and hydrates successfully, each
document lies in its column's folder, and the column directory names are
distinct.  (The normalization set is genuinely rewritten, and a file that
fails to hydrate is deleted by the same save's cleanup: see the
counterexample.) -/
theorem roundTrip_board_save_spec (frontmatter settings : List (String × FmValue))
    (columns : List ColumnSource) (v : Vault)
    (hparse : ∀ c ∈ columns, ∀ e ∈ c.docs, ∃ d it, e.2 = some d ∧
      loadItemFromFile e.1 d.frontmatter d.ast = some it)
    (hfolder : ∀ c ∈ columns, ∀ e ∈ c.docs, e.1.folder = c.name)
    (hcover : ∀ c ∈ columns, ∀ g : FileRef, v.fileTaken g = true → g.folder = c.name →
      ∃ e ∈ c.docs, e.1 = g)
    (hnodup : (columns.map ColumnSource.name).Nodup) :
    (saveAllItemsToFolders (fun _ => false)
        (loadFromFolderStructure frontmatter settings columns) v).2.1.files.map Prod.fst =
      v.files.map Prod.fst ∧
    (∀ c ∈ columns, ∀ g : FileRef, v.fileTaken g = true → g.folder = c.name →
      ∃ e ∈ c.docs, ∃ d it, e.1 = g ∧ e.2 = some d ∧
        loadItemFromFile g d.frontmatter d.ast = some it ∧
        (saveAllItemsToFolders (fun _ => false)
            (loadFromFolderStructure frontmatter settings columns) v).2.1.read g =
          some (generateItemFileContent it)) ∧
    (∀ (f : FileRef) (fm : List (String × FmValue)) (ast : List BlockNode) (it : Item),
      loadItemFromFile f fm ast = some it →
      getKey (generateItemFrontmatter it) "id" = some (.val (.str f.basename)) ∧
      (∀ k, k ∉ (["completed", "parent_id", "aliases", "tags", "id", "file"] : List String) →
        getKey (generateItemFrontmatter it) k = (lookupFm fm k).map MetaValue.val)) := by
  have hok : ∀ lane ∈ (loadFromFolderStructure frontmatter settings columns).children,
      (∀ it ∈ lane.children, ∃ f : FileRef,
        getKey it.data.metadata "file" = some (.file f) ∧ f.folder = lane.data.title) ∧
      (∀ g : FileRef, v.fileTaken g = true → g.folder = lane.data.title →
        ∃ it ∈ lane.children, getKey it.data.metadata "file" = some (.file g)) := by
    intro lane hl
    have hmem : lane ∈ columns.map (fun c => loadColumn c.name c.docs) :=
      (List.perm_insertionSort laneLe _).mem_iff.mp hl
    rcases List.mem_map.mp hmem with ⟨c, hc, rfl⟩
    constructor
    · intro it hit
      obtain ⟨e, he, d, hd, hload⟩ := loadColumn_children_mem c.name c.docs it hit
      exact ⟨e.1, loadItem_backref e.1 d.frontmatter d.ast it hload, hfolder c hc e he⟩
    · intro g htaken hfold
      obtain ⟨e, he, he1⟩ := hcover c hc g htaken hfold
      obtain ⟨d, it, hd, hload⟩ := hparse c hc e he
      refine ⟨it, loadColumn_children_mem_of c.name c.docs e d it he hd hload, ?_⟩
      have hb := loadItem_backref e.1 d.frontmatter d.ast it hload
      rw [he1] at hb
      exact hb
  have hnlanes : ((loadFromFolderStructure frontmatter settings columns).children.map
      (fun l => l.data.title)).Nodup := by
    have hperm : List.Perm (loadFromFolderStructure frontmatter settings columns).children
        (columns.map (fun c => loadColumn c.name c.docs)) :=
      List.perm_insertionSort laneLe _
    rw [(hperm.map (fun l => l.data.title)).nodup_iff]
    simpa [List.map_map, Function.comp] using hnodup
  have hM := saveLanes_update_all v
    (loadFromFolderStructure frontmatter settings columns).children v hok hnlanes rfl
  refine ⟨hM.1, ?_, fun f fm ast it hload => loadItem_genFm_fields f fm ast it hload⟩
  intro c hc g htaken hfold
  have hlmem : loadColumn c.name c.docs ∈
      (loadFromFolderStructure frontmatter settings columns).children :=
    (List.perm_insertionSort laneLe _).mem_iff.mpr (List.mem_map_of_mem _ hc)
  obtain ⟨it, hit, hback, hread⟩ := hM.2.2 (loadColumn c.name c.docs) hlmem g htaken hfold
  obtain ⟨e, he, d, hd, hload⟩ := loadColumn_children_mem c.name c.docs it hit
  have hb := loadItem_backref e.1 d.frontmatter d.ast it hload
  have he1 : e.1 = g := by
    rw [hb] at hback
    cases hback
    rfl
  refine ⟨e, he, d, it, he1, hd, ?_, hread⟩
  rw [← he1]
  exact hload

/-- Hydrated front matter for the C1 witness. -/
def fmC1 : List (String × FmValue) := [("custom", .str "keep"), ("completed", .bool true)]

/-- Vault for the C1 witness: the hydrated file lies in column `A`. -/
def vaultC1 : Vault := { folders := ["A"], files := [(⟨"A", "t"⟩, "old content")] }

/-- Column sources for the C1 witness: one column `A` with the parsed
document of `A/t.md`. -/
def colsC1 : List ColumnSource := [⟨"A", [(⟨"A", "t"⟩, some ⟨fmC1, []⟩)]⟩]

/-- Witness for claim C1: the board with the single file `A/t.md` (a
`custom` field and `completed: true`) hydrated and saved unchanged keeps its
file set, and the regenerated front matter keeps `custom` and carries
`id: t`. -/
theorem roundTrip_board_save_spec_witness :
    (saveAllItemsToFolders (fun _ => false) (loadFromFolderStructure [] [] colsC1)
        vaultC1).2.1.files.map Prod.fst = vaultC1.files.map Prod.fst ∧
    ∃ it, loadItemFromFile ⟨"A", "t"⟩ fmC1 [] = some it ∧
      getKey (generateItemFrontmatter it) "custom" = some (.val (.str "keep")) ∧
      getKey (generateItemFrontmatter it) "id" = some (.val (.str "t")) := by
  have hparse : ∀ c ∈ colsC1, ∀ e ∈ c.docs, ∃ d it, e.2 = some d ∧
      loadItemFromFile e.1 d.frontmatter d.ast = some it := by
    intro c hc e he
    simp only [colsC1, List.mem_singleton] at hc
    subst hc
    simp only [List.mem_singleton] at he
    subst he
    exact ⟨⟨fmC1, []⟩, _, rfl, rfl⟩
  have hfolder : ∀ c ∈ colsC1, ∀ e ∈ c.docs, e.1.folder = c.name := by
    intro c hc e he
    simp only [colsC1, List.mem_singleton] at hc
    subst hc
    simp only [List.mem_singleton] at he
    subst he
    rfl
  have hcover : ∀ c ∈ colsC1, ∀ g : FileRef, vaultC1.fileTaken g = true →
      g.folder = c.name → ∃ e ∈ c.docs, e.1 = g := by
    intro c hc g htaken _
    simp only [colsC1, List.mem_singleton] at hc
    subst hc
    have hg : g = ⟨"A", "t"⟩ := by
      have hmem := (fileTakenList_iff_mem vaultC1.files g).mp htaken
      simpa [vaultC1] using hmem
    subst hg
    exact ⟨(⟨"A", "t"⟩, some ⟨fmC1, []⟩), List.mem_singleton.mpr rfl, rfl⟩
  have h := roundTrip_board_save_spec [] [] colsC1 vaultC1 hparse hfolder hcover (by decide)
  refine ⟨h.1, ?_⟩
  cases hit : loadItemFromFile ⟨"A", "t"⟩ fmC1 [] with
  | none => exact absurd hit (by decide)
  | some it =>
    have hfields := h.2.2 ⟨"A", "t"⟩ fmC1 [] it hit
    refine ⟨it, rfl, ?_, hfields.1⟩
    rw [hfields.2 "custom" (by decide)]
    rfl

/-- Hydrated front matter for the C1 counterexample: a stored
`completed: false` field. -/
def fmC1cx : List (String × FmValue) := [("completed", .bool false)]

/-- Column sources for the C1 counterexample: column `A` holds `A/t.md`,
which parses (front matter `completed: false`), and `A/bad.md`, whose
read/parse fails and which is skipped by the per-file catch. -/
def colsC1cx : List ColumnSource :=
  [⟨"A", [(⟨"A", "t"⟩, some ⟨fmC1cx, []⟩), (⟨"A", "bad"⟩, none)]⟩]

/-- On-disk state for the C1 counterexample. -/
def vaultC1cx : Vault :=
  { folders := ["A"], files := [(⟨"A", "t"⟩, "c1"), (⟨"A", "bad"⟩, "c2")] }

/-- Counterexample for claim C1 as frozen, at board scope: persisting the
hydrated board with no in-memory edits (1) deletes the existing file
`A/bad.md` — it failed to hydrate, backs no item, and the save's orphan
cleanup removes it, altering an existing file's path — and (2) rewrites
`A/t.md` with a front-matter block from which the stored non-denormalized
field `completed: false` has been deleted, an alteration beyond the allowed
rewrite of `id`. -/
theorem roundTrip_board_counterexample :
    vaultC1cx.read ⟨"A", "bad"⟩ = some "c2" ∧
    (saveAllItemsToFolders (fun _ => false) (loadFromFolderStructure [] [] colsC1cx)
        vaultC1cx).2.1.read ⟨"A", "bad"⟩ = none ∧
    lookupFm fmC1cx "completed" = some (.bool false) ∧
    (loadItemFromFile ⟨"A", "t"⟩ fmC1cx []).map
        (fun it => getKey (generateItemFrontmatter it) "completed") = some none := by
  refine ⟨rfl, by decide, rfl, by decide⟩

/-! ## Claim C4 — cross-column moves -/

theorem ensureFolder_read (v : Vault) (c : String) (g : FileRef) :
    (v.ensureFolder c).read g = v.read g := by
  unfold Vault.read
  rw [ensureFolder_files]

theorem moveItem_eq (item : Item) (f : FileRef) (newCol : String) (v : Vault)
    (k : Nat) (target : FileRef)
    (hcol : f.folder ≠ newCol)
    (hkge : 1 ≤ k) (hkfuel : k < 1 + (v.files.length + 1))
    (hkfree : v.fileTaken ⟨newCol, f.basename ++ "_" ++ toString k⟩ = false)
    (hkleast : ∀ j, 1 ≤ j → j < k →
      v.fileTaken ⟨newCol, f.basename ++ "_" ++ toString j⟩ = true)
    (htarget : target = if v.fileTaken ⟨newCol, f.basename⟩ = true
                        then ⟨newCol, f.basename ++ "_" ++ toString k⟩
                        else ⟨newCol, f.basename⟩) :
    moveItemToNewColumn item f newCol v =
      (setItemFile item target,
       updateItemFileContent (setItemFile item target) target
         ((v.ensureFolder newCol).rename f target)) := by
  have hfiles : (v.ensureFolder newCol).files = v.files := ensureFolder_files v newCol
  have hft : ∀ g, (v.ensureFolder newCol).fileTaken g = v.fileTaken g :=
    fun g => ensureFolder_fileTaken v newCol g
  have hne : (⟨newCol, f.basename⟩ : FileRef) ≠ f := by
    intro h
    exact hcol (congrArg FileRef.folder h).symm
  have hmatch : ∀ (t : FileRef),
      getKey (setItemFile item t).data.metadata "file" = some (.file t) := by
    intro t
    simp [setItemFile, getKey_setKey_self]
  unfold moveItemToNewColumn
  dsimp only
  by_cases ht : v.fileTaken ⟨newCol, f.basename⟩ = true
  · have hcond : (v.ensureFolder newCol).fileTaken ⟨newCol, f.basename⟩ = true ∧
        (⟨newCol, f.basename⟩ : FileRef) ≠ f := ⟨by rw [hft]; exact ht, hne⟩
    rw [if_pos hcond]
    have halloc : allocLoop (v.ensureFolder newCol) newCol f.basename
        ((v.ensureFolder newCol).files.length + 1) 1 = target := by
      rw [htarget, if_pos ht]
      apply allocLoop_eq_first_free
      · exact hkge
      · rw [hfiles]; omega
      · rw [hft]; exact hkfree
      · intro j hj hj'
        rw [hft]
        exact hkleast j hj hj'
    rw [halloc, hmatch target]
  · have hcond : ¬((v.ensureFolder newCol).fileTaken ⟨newCol, f.basename⟩ = true ∧
        (⟨newCol, f.basename⟩ : FileRef) ≠ f) := by
      intro hc
      exact ht ((hft _).symm.trans hc.1)
    rw [if_neg hcond]
    have htgt : target = ⟨newCol, f.basename⟩ := by rw [htarget, if_neg ht]
    rw [← htgt, hmatch target]

/-- Claim C4: an item whose recorded file lies in a different column than its
current one is moved on save: the target column folder is created when
absent; the file is renamed into it under its current name, or — when a
different file occupies that path — to the first unused `basename_k.md`
probed with `k = 1, 2, ...`; after either path the moved file's content is
regenerated, the old path no longer exists, the back-reference points at the
moved file, and (in the collision case) the occupant of the plain target
path is untouched. -/
theorem moveItem_spec (item : Item) (f : FileRef) (newCol : String) (v : Vault)
    (k : Nat) (target : FileRef)
    (hfile : getKey item.data.metadata "file" = some (.file f))
    (hcol : f.folder ≠ newCol)
    (hdisk : v.fileTaken f = true)
    (hkge : 1 ≤ k) (hkfuel : k < 1 + (v.files.length + 1))
    (hkfree : v.fileTaken ⟨newCol, f.basename ++ "_" ++ toString k⟩ = false)
    (hkleast : ∀ j, 1 ≤ j → j < k →
      v.fileTaken ⟨newCol, f.basename ++ "_" ++ toString j⟩ = true)
    (htarget : target = if v.fileTaken ⟨newCol, f.basename⟩ = true
                        then ⟨newCol, f.basename ++ "_" ++ toString k⟩
                        else ⟨newCol, f.basename⟩) :
    getKey (saveItemToCorrectFolder item newCol v).1.data.metadata "file" =
      some (.file target) ∧
    (saveItemToCorrectFolder item newCol v).2.read target =
      some (generateItemFileContent (saveItemToCorrectFolder item newCol v).1) ∧
    (saveItemToCorrectFolder item newCol v).2.read f = none ∧
    newCol ∈ (saveItemToCorrectFolder item newCol v).2.folders ∧
    (v.fileTaken ⟨newCol, f.basename⟩ = true →
      target ≠ ⟨newCol, f.basename⟩ ∧
      (saveItemToCorrectFolder item newCol v).2.read ⟨newCol, f.basename⟩ =
        v.read ⟨newCol, f.basename⟩) := by
  have hsave : saveItemToCorrectFolder item newCol v = moveItemToNewColumn item f newCol v := by
    unfold saveItemToCorrectFolder
    rw [hfile]
    simp [hcol]
  have heq := moveItem_eq item f newCol v k target hcol hkge hkfuel hkfree hkleast htarget
  have htf : target.folder = newCol := by
    rw [htarget]
    split <;> rfl
  have hfne : f ≠ target := by
    intro h
    exact hcol (by rw [h, htf])
  have hne : (⟨newCol, f.basename⟩ : FileRef) ≠ f := by
    intro h
    exact hcol (congrArg FileRef.folder h).symm
  have hft1 : (v.ensureFolder newCol).fileTaken f = true := by
    rw [ensureFolder_fileTaken]; exact hdisk
  have htTaken : ((v.ensureFolder newCol).rename f target).fileTaken target = true :=
    fileTaken_rename_dst _ f target hft1
  rw [hsave, heq]
  refine ⟨?_, ?_, ?_, ?_, ?_⟩
  · simp [setItemFile, getKey_setKey_self]
  · exact read_modify_self _ target _ htTaken
  · exact (read_modify_other _ target _ f hfne).trans (read_rename_src _ f target hfne)
  · exact mem_ensureFolder_folders v newCol
  · intro ht
    have htgt : target = ⟨newCol, f.basename ++ "_" ++ toString k⟩ := by
      rw [htarget, if_pos ht]
    have hbase_ne : target ≠ ⟨newCol, f.basename⟩ := by
      rw [htgt]
      intro h
      have hb : f.basename ++ "_" ++ toString k = f.basename :=
        congrArg FileRef.basename h
      have hlen := congrArg String.length hb
      rw [String.length_append, String.length_append] at hlen
      have hu : ("_" : String).length = 1 := rfl
      omega
    refine ⟨hbase_ne, ?_⟩
    exact (read_modify_other _ target _ _ (Ne.symm hbase_ne)).trans
      ((read_rename_other _ f target _ hne (Ne.symm hbase_ne)).trans
        (ensureFolder_read v newCol _))

/-- Item for the C4 witness: in memory it sits in column `B`, its recorded
file still lies in `A`. -/
def itemC4 : Item :=
  { id := "m4"
    data :=
      { checked := false
        checkChar := ' '
        title := "t"
        titleRaw := "t"
        titleSearch := "t"
        metadata := [("file", .file ⟨"A", "t"⟩)]
        parent_id := .null } }

/-- Vault for the C4 witness: `A/t.md` is the moved item's file and `B/t.md`
belongs to a different item. -/
def vaultC4 : Vault :=
  { folders := ["A", "B"], files := [(⟨"A", "t"⟩, "orig"), (⟨"B", "t"⟩, "otherItem")] }

/-- Witness for claim C4, the collision scenario of the claim: `A/t.md`
moved in memory to column `B`, which already holds a different `t.md`, ends
up at `B/t_1.md` with regenerated content; `A/t.md` no longer exists and
`B/t.md` is untouched. -/
theorem moveItem_spec_witness :
    getKey (saveItemToCorrectFolder itemC4 "B" vaultC4).1.data.metadata "file" =
      some (.file ⟨"B", "t_1"⟩) ∧
    (saveItemToCorrectFolder itemC4 "B" vaultC4).2.read ⟨"A", "t"⟩ = none ∧
    (saveItemToCorrectFolder itemC4 "B" vaultC4).2.read ⟨"B", "t"⟩ = some "otherItem" ∧
    (saveItemToCorrectFolder itemC4 "B" vaultC4).2.read ⟨"B", "t_1"⟩ =
      some (generateItemFileContent (saveItemToCorrectFolder itemC4 "B" vaultC4).1) := by
  have h := moveItem_spec itemC4 ⟨"A", "t"⟩ "B" vaultC4 1 ⟨"B", "t_1"⟩
    rfl (by decide) (by decide) (by decide) (by decide) (by decide)
    (fun j hj hj' => absurd (Nat.lt_of_lt_of_le hj' hj) (Nat.lt_irrefl j)) (by decide)
  refine ⟨h.1, h.2.2.1, ?_, h.2.1⟩
  rw [(h.2.2.2.2 (by decide)).2]
  rfl

/-! ## Claim C8 — new-item file allocation -/

theorem createNewItemFile_eq (item : Item) (col : String) (v : Vault)
    (k : Nat) (base : String) (target : FileRef)
    (hbase : base = (if (sanitizeTitle item.data.titleRaw).isEmpty then "untitled"
                     else sanitizeTitle item.data.titleRaw))
    (hkge : 1 ≤ k) (hkfuel : k < 1 + (v.files.length + 1))
    (hkfree : v.fileTaken ⟨col, base ++ "_" ++ toString k⟩ = false)
    (hkleast : ∀ j, 1 ≤ j → j < k →
      v.fileTaken ⟨col, base ++ "_" ++ toString j⟩ = true)
    (htarget : target = if v.fileTaken ⟨col, base⟩ = true
                        then ⟨col, base ++ "_" ++ toString k⟩ else ⟨col, base⟩) :
    createNewItemFile item col v =
      (setItemFile item target,
       (v.ensureFolder col).createFile target (generateItemFileContent item)) := by
  have hfiles : (v.ensureFolder col).files = v.files := ensureFolder_files v col
  have hft : ∀ g, (v.ensureFolder col).fileTaken g = v.fileTaken g :=
    fun g => ensureFolder_fileTaken v col g
  have halloc : allocFileRef (v.ensureFolder col) col base = target := by
    unfold allocFileRef
    by_cases ht : v.fileTaken ⟨col, base⟩ = true
    · rw [if_pos (by rw [hft]; exact ht), htarget, if_pos ht]
      apply allocLoop_eq_first_free
      · exact hkge
      · rw [hfiles]; omega
      · rw [hft]; exact hkfree
      · intro j hj hj'
        rw [hft]
        exact hkleast j hj hj'
    · rw [if_neg (by rw [hft]; exact ht), htarget, if_neg ht]
  unfold createNewItemFile
  dsimp only
  rw [← hbase, halloc]

/-- Claim C8 (amended): a new item's file name is derived from the title by
keeping only ASCII letters, digits, `-`, `_` and whitespace characters (the
source strips with `/[^a-zA-Z0-9\s-_]/`, so non-space whitespace such as a
tab survives the strip), then trimming surrounding whitespace, with the
literal fallback `untitled` when the result is empty; `name.md` is used when
unused in the target column, else the first unused of `name_1.md`,
`name_2.md`, ...; the column folder is created first when absent, the file
is created with the generated content, and the item's back-reference records
it. -/
theorem createNewItemFile_spec (item : Item) (col : String) (v : Vault)
    (k : Nat) (base : String) (target : FileRef)
    (hbase : base = (if (sanitizeTitle item.data.titleRaw).isEmpty then "untitled"
                     else sanitizeTitle item.data.titleRaw))
    (hkge : 1 ≤ k) (hkfuel : k < 1 + (v.files.length + 1))
    (hkfree : v.fileTaken ⟨col, base ++ "_" ++ toString k⟩ = false)
    (hkleast : ∀ j, 1 ≤ j → j < k →
      v.fileTaken ⟨col, base ++ "_" ++ toString j⟩ = true)
    (htarget : target = if v.fileTaken ⟨col, base⟩ = true
                        then ⟨col, base ++ "_" ++ toString k⟩ else ⟨col, base⟩) :
    col ∈ (createNewItemFile item col v).2.folders ∧
    v.fileTaken target = false ∧
    (createNewItemFile item col v).2.read target = some (generateItemFileContent item) ∧
    getKey (createNewItemFile item col v).1.data.metadata "file" = some (.file target) ∧
    (∀ g, g ≠ target → (createNewItemFile item col v).2.read g = v.read g) := by
  have heq := createNewItemFile_eq item col v k base target hbase hkge hkfuel hkfree
    hkleast htarget
  rw [heq]
  refine ⟨mem_ensureFolder_folders v col, ?_, read_createFile_self _ _ _, ?_, ?_⟩
  · by_cases ht : v.fileTaken ⟨col, base⟩ = true
    · rw [htarget, if_pos ht]
      exact hkfree
    · rw [htarget, if_neg ht]
      revert ht
      cases v.fileTaken ⟨col, base⟩ <;> simp
  · simp [setItemFile, getKey_setKey_self]
  · intro g hg
    exact (read_createFile_other _ target _ g hg).trans (ensureFolder_read v col g)

/-- New item for the C8 witness: title `My Task!!`, no back-reference. -/
def itemC8 : Item :=
  { id := "n8"
    data :=
      { checked := false
        checkChar := ' '
        title := "My Task!!"
        titleRaw := "My Task!!"
        titleSearch := "my task!!"
        metadata := []
        parent_id := .null } }

/-- Empty vault for the C8 witness: the column `Todo` does not exist yet. -/
def vaultC8 : Vault := { folders := [], files := [] }

/-- Witness for claim C8: the item titled `My Task!!` saved into the absent
column `Todo` creates the folder and the file `Todo/My Task.md`, recorded as
the item's back-reference. -/
theorem createNewItemFile_spec_witness :
    "Todo" ∈ (createNewItemFile itemC8 "Todo" vaultC8).2.folders ∧
    (createNewItemFile itemC8 "Todo" vaultC8).2.read ⟨"Todo", "My Task"⟩ =
      some (generateItemFileContent itemC8) ∧
    getKey (createNewItemFile itemC8 "Todo" vaultC8).1.data.metadata "file" =
      some (.file ⟨"Todo", "My Task"⟩) := by
  have h := createNewItemFile_spec itemC8 "Todo" vaultC8 1 "My Task" ⟨"Todo", "My Task"⟩
    (by decide) (by decide) (by decide) (by decide)
    (fun j hj hj' => absurd (Nat.lt_of_lt_of_le hj' hj) (Nat.lt_irrefl j)) (by decide)
  exact ⟨h.1, h.2.2.1, h.2.2.2.1⟩

/-- Definition following the claim's words (not the source): strip every
character outside `[A-Za-z0-9 _-]` — the space being the only whitespace
kept — and trim surrounding whitespace. -/
def claimSanitize (s : String) : String :=
  jsTrim (String.mk (s.toList.filter
    (fun c => c.isAlpha || c.isDigit || c = ' ' || c = '_' || c = '-')))

/-- New item for the C8 counterexample: its title holds a tab character. -/
def itemC8cx : Item :=
  { id := "n8x"
    data :=
      { checked := false
        checkChar := ' '
        title := "a\tb!"
        titleRaw := "a\tb!"
        titleSearch := "a\tb!"
        metadata := []
        parent_id := .null } }

/-- Counterexample for claim C8 as frozen: for the title `a<TAB>b!`, the
claim's character class `[A-Za-z0-9 _-]` would give the file name `ab.md`,
but the source's class also keeps non-space whitespace (`\s`), so the file
is created with a tab in its name. -/
theorem createNewItemFile_sanitize_counterexample :
    getKey (createNewItemFile itemC8cx "Todo" vaultC8).1.data.metadata "file" =
      some (.file ⟨"Todo", "a\tb"⟩) ∧
    claimSanitize "a\tb!" = "ab" ∧
    ("a\tb" : String) ≠ "ab" := by
  refine ⟨by decide, by decide, by decide⟩

/-! ## Claim C2 — isolation of a per-item write failure -/

/-- Item of the C2 scenario whose write fails. -/
def itemC2a : Item :=
  { id := "a"
    data :=
      { checked := false, checkChar := ' ', title := "a", titleRaw := "a"
        titleSearch := "a", metadata := [("file", .file ⟨"A", "a"⟩)], parent_id := .null } }

/-- Sibling item in the same column whose write succeeds. -/
def itemC2b : Item :=
  { id := "b"
    data :=
      { checked := false, checkChar := ' ', title := "b", titleRaw := "b"
        titleSearch := "b", metadata := [("file", .file ⟨"A", "b"⟩)], parent_id := .null } }

/-- Item in another column whose write succeeds. -/
def itemC2c : Item :=
  { id := "c"
    data :=
      { checked := false, checkChar := ' ', title := "c", titleRaw := "c"
        titleSearch := "c", metadata := [("file", .file ⟨"B", "c"⟩)], parent_id := .null } }

/-- Board of the C2 scenario: columns `A` (two items) and `B` (one item). -/
def boardC2 : Board :=
  { id := ""
    data := { settings := [], frontmatter := [] }
    children :=
      [ { id := "", data := { title := "A" }, children := [itemC2a, itemC2b] },
        { id := "", data := { title := "B" }, children := [itemC2c] } ] }

/-- On-disk state of the C2 scenario before the save. -/
def vaultC2 : Vault :=
  { folders := ["A", "B"]
    files := [(⟨"A", "a"⟩, "user content"), (⟨"A", "b"⟩, "cb"), (⟨"B", "c"⟩, "cc")] }

/-- Claim C2 evaluated at the failing input: when the per-item write of
`itemC2a` (file `A/a.md`) fails, the remaining items of both columns are
still written and the save completes — but the failing item's file name was
never added to column `A`'s expected set, so the orphan cleanup of that very
save deletes `A/a.md`, losing the user content the claim says is never
lost. -/
theorem save_deletes_failing_items_file :
    vaultC2.read ⟨"A", "a"⟩ = some "user content" ∧
    (saveAllItemsToFolders (fun it => it.id = "a") boardC2 vaultC2).2.1.read ⟨"A", "a"⟩ =
      none ∧
    ((saveAllItemsToFolders (fun it => it.id = "a") boardC2 vaultC2).2.1.read
        ⟨"A", "b"⟩).isSome = true ∧
    ((saveAllItemsToFolders (fun it => it.id = "a") boardC2 vaultC2).2.1.read
        ⟨"B", "c"⟩).isSome = true := by
  refine ⟨rfl, by decide, by decide, by decide⟩

/-! ## Claim C3 — sequencing of orphan cleanup -/

/-- Item of column `A` in the C3 scenario. -/
def itemC3a : Item :=
  { id := "a3"
    data :=
      { checked := false, checkChar := ' ', title := "x", titleRaw := "x"
        titleSearch := "x", metadata := [("file", .file ⟨"A", "x"⟩)], parent_id := .null } }

/-- Item of column `B` in the C3 scenario. -/
def itemC3b : Item :=
  { id := "b3"
    data :=
      { checked := false, checkChar := ' ', title := "y", titleRaw := "y"
        titleSearch := "y", metadata := [("file", .file ⟨"B", "y"⟩)], parent_id := .null } }

/-- Board of the C3 scenario: two columns with one item each. -/
def boardC3 : Board :=
  { id := ""
    data := { settings := [], frontmatter := [] }
    children :=
      [ { id := "", data := { title := "A" }, children := [itemC3a] },
        { id := "", data := { title := "B" }, children := [itemC3b] } ] }

/-- On-disk state of the C3 scenario. -/
def vaultC3 : Vault :=
  { folders := ["A", "B"], files := [(⟨"A", "x"⟩, "cx"), (⟨"B", "y"⟩, "cy")] }

/-- Claim C3 evaluated at the failing input: on a two-column board the save
trace runs column `A`'s orphan cleanup before column `B`'s item write — the
cleanup phase is interleaved with later columns' item-level operations, not
sequenced after all of them. -/
theorem cleanup_interleaved_between_columns :
    (saveAllItemsToFolders (fun _ => false) boardC3 vaultC3).2.2 =
      [SaveEvent.itemSave "A" "a3", SaveEvent.cleanup "A",
       SaveEvent.itemSave "B" "b3", SaveEvent.cleanup "B"] ∧
    cleanupAfterAllWrites
      (saveAllItemsToFolders (fun _ => false) boardC3 vaultC3).2.2 = false := by
  refine ⟨by decide, by decide⟩

/-! ## Claim C9 — ordering of columns and items -/

/-- Claim C9 (amended): after a load the columns are sorted by title and
every column's items are sorted by title (the locale-aware comparison being
modelled as the default order on strings); a structural save does not
reorder anything — every lane keeps its title and its items' order — so the
board is alphabetical after a save only if it already was (see the
counterexample). -/
theorem load_sorted_save_preserves (frontmatter settings : List (String × FmValue))
    (columns : List ColumnSource) (fails : Item → Bool) (b : Board) (v : Vault) :
    List.Sorted laneLe (loadFromFolderStructure frontmatter settings columns).children ∧
    (∀ lane ∈ (loadFromFolderStructure frontmatter settings columns).children,
      List.Sorted itemLe lane.children) ∧
    (saveAllItemsToFolders fails b v).1.children.map
        (fun l => (l.data.title, l.children.map (fun i => i.data.titleRaw))) =
      b.children.map (fun l => (l.data.title, l.children.map (fun i => i.data.titleRaw))) := by
  refine ⟨?_, ?_, ?_⟩
  · exact List.sorted_insertionSort laneLe _
  · intro lane hl
    have hmem : lane ∈ columns.map (fun c => loadColumn c.name c.docs) :=
      ((List.perm_insertionSort laneLe _).mem_iff).mp hl
    rcases List.mem_map.mp hmem with ⟨c, _, rfl⟩
    exact List.sorted_insertionSort itemLe _
  · exact saveLanes_shape fails b.children v

/-- First lane of the C9 counterexample board, titled `B`. -/
def laneC9B : Lane := { id := "", data := { title := "B" }, children := [] }

/-- Second lane of the C9 counterexample board, titled `A`. -/
def laneC9A : Lane := { id := "", data := { title := "A" }, children := [] }

/-- Board of the C9 counterexample: its columns are out of order in memory. -/
def boardC9 : Board :=
  { id := "", data := { settings := [], frontmatter := [] }, children := [laneC9B, laneC9A] }

/-- Vault of the C9 counterexample. -/
def vaultC9 : Vault := { folders := ["A", "B"], files := [] }

/-- Column sources of the C9 witness: folders `B` and `A`, both empty. -/
def colsC9 : List ColumnSource := [⟨"B", []⟩, ⟨"A", []⟩]

/-- Counterexample for claim C9 as frozen: a structural save of a board
whose columns stand in the order `B`, `A` leaves them in that order — the
save path never sorts, so after this save the columns are not ordered
alphabetically by title. -/
theorem save_does_not_sort_columns_counterexample :
    (saveAllItemsToFolders (fun _ => false) boardC9 vaultC9).1.children.map
        (fun l => l.data.title) = ["B", "A"] ∧
    ¬ List.Sorted laneLe (saveAllItemsToFolders (fun _ => false) boardC9 vaultC9).1.children := by
  constructor
  · decide
  · intro h
    have he : (saveAllItemsToFolders (fun _ => false) boardC9 vaultC9).1.children =
        [laneC9B, laneC9A] := by decide
    rw [he] at h
    have hle : laneLe laneC9B laneC9A :=
      (List.sorted_cons.mp h).1 laneC9A (List.mem_singleton.mpr rfl)
    have hlt : ("A" : String) < "B" := String.lt_iff_toList_lt.mpr (by decide)
    exact absurd (show ("B" : String) ≤ "A" from hle) (not_le.mpr hlt)

/-- Witness for claim C9: loading the out-of-order folders `B`, `A` yields
sorted columns, and the save of `boardC9` preserves every lane's title and
item order. -/
theorem load_sorted_save_preserves_witness :
    List.Sorted laneLe (loadFromFolderStructure [] [] colsC9).children ∧
    (saveAllItemsToFolders (fun _ => false) boardC9 vaultC9).1.children.map
        (fun l => (l.data.title, l.children.map (fun i => i.data.titleRaw))) =
      boardC9.children.map (fun l => (l.data.title, l.children.map (fun i => i.data.titleRaw))) :=
  ⟨(load_sorted_save_preserves [] [] colsC9 (fun _ => false) boardC9 vaultC9).1,
   (load_sorted_save_preserves [] [] colsC9 (fun _ => false) boardC9 vaultC9).2.2⟩

end FolderFormat
